import Mathlib

/-!
# Verification of the Pintos inode layer (`filesys/inode.c`)

Shallow embedding of `src/project/pintos/project2_3/filesys/inode.c`.

Modelling conventions:
* A disk sector's content is a function `Nat → Nat` (byte index ↦ byte value for
  data sectors, entry index ↦ sector number for index sectors; the C code stores
  both through the same `cache_read`/`cache_write` interface).
* The sector cache and the free-space allocator are external collaborators
  (spec §6); the allocator is modelled from the spec as a list of sector numbers
  it will hand out, failing with the distinguished invalid value on exhaustion.
* `free_map_release` calls are recorded in an append-only trace, so release
  order and multiplicity are observable.
* `malloc` for bounce buffers and handles is assumed to succeed (memory
  exhaustion is not modelled); locks are not modelled (single-threaded
  execution); `ASSERT` is a no-op.
* `off_t`/`int` quantities that stay non-negative on all execution paths that
  the theorems describe are `Nat`; signed intermediate quantities in the I/O
  loops (`inode_left`, `chunk_size`) are `Int` as in the C source; the `size_t`
  subtraction in `inode_grow` is taken modulo `2 ^ 64`.
-/

set_option maxHeartbeats 1000000
set_option maxRecDepth 8000

namespace Pintos

/-- `BLOCK_SECTOR_SIZE` (512 bytes per sector). -/
def BLOCK_SECTOR_SIZE : Nat := 512

/-- `#define INDIRECT_BLOCK_SIZE 128` -/
def INDIRECT_BLOCK_SIZE : Nat := 128

/-- `#define DIRECT_BLOCKS 12` -/
def DIRECT_BLOCKS : Nat := 12

/-- `#define INDIRECT_BLOCKS 140` -/
def INDIRECT_BLOCKS : Nat := 140

/-- `#define DOUBLY_BLOCKS 16524` -/
def DOUBLY_BLOCKS : Nat := 16524

/-- `#define INODE_MAGIC 0x494e4f44` -/
def INODE_MAGIC : Nat := 0x494e4f44

/-- `(block_sector_t) -1`, the distinguished invalid sector value. -/
def INVALID_SECTOR : Nat := 2 ^ 32 - 1

/-- Modulus of `size_t` arithmetic. -/
def SIZE_T_MOD : Nat := 2 ^ 64

/-- `struct inode_disk`: the on-disk inode record.  `unused` padding is not
modelled.  `direct` is the `block_sector_t direct[14]` array (indices ≥ 14 are
never accessed by the code). -/
structure inode_disk where
  length : Nat
  magic : Nat
  direct : Nat → Nat
  blocks : Nat
  is_dir : Bool

/-- The file-system state seen by this module: the disk contents (behind the
sector cache, which is modelled as transparent), the free-space allocator's
supply, and the trace of released sectors. -/
structure FsState where
  disk : Nat → Nat → Nat
  freeList : List Nat
  released : List Nat

/-- `cache_read (sector, buffer)`: the buffer receives the sector's content. -/
def cache_read (st : FsState) (s : Nat) : Nat → Nat := st.disk s

/-- `cache_write (sector, buffer)`: persist a sector-sized buffer. -/
def cache_write (st : FsState) (s : Nat) (c : Nat → Nat) : FsState :=
  { st with disk := Function.update st.disk s c }

/-- Modelled from the spec (§6, the free-space allocator is not part of
`src/`): `allocate(1)` reserves one sector identifier and "fails by returning a
distinguished invalid value if storage is exhausted". -/
def free_map_allocate (st : FsState) : Nat × FsState :=
  match st.freeList with
  | [] => (INVALID_SECTOR, st)
  | s :: rest => (s, { st with freeList := rest })

/-- Modelled from the spec (§6): `release(sector, 1)` returns a sector to the
free pool; recorded in the release trace. -/
def free_map_release (st : FsState) (s : Nat) : FsState :=
  { st with released := st.released ++ [s] }

/-- `bytes_to_sectors`: `DIV_ROUND_UP (size, BLOCK_SECTOR_SIZE)`. -/
def bytes_to_sectors (size : Nat) : Nat :=
  (size + BLOCK_SECTOR_SIZE - 1) / BLOCK_SECTOR_SIZE

/-- `struct inode`: the in-memory handle.  The intrusive `list_elem` and the
lock are not modelled; `open_cnt` and `deny_write_cnt` are C `int`s. -/
structure inode where
  sector : Nat
  open_cnt : Int
  removed : Bool
  deny_write_cnt : Int
  data : inode_disk

/-- `inode_length`. -/
def inode_length (ino : inode) : Nat := ino.data.length

/-- `byte_to_sector`: maps byte offset `pos` to the physical sector holding it,
or `(block_sector_t) -1` when `pos` is at or past the length (or beyond the
doubly-indirect range).  Pure: it only reads the disk. -/
def byte_to_sector (st : FsState) (ino : inode) (pos : Nat) : Nat :=
  if pos < ino.data.length then
    if pos / BLOCK_SECTOR_SIZE < DIRECT_BLOCKS then
      ino.data.direct (pos / BLOCK_SECTOR_SIZE)
    else if pos / BLOCK_SECTOR_SIZE < INDIRECT_BLOCKS then
      cache_read st (ino.data.direct DIRECT_BLOCKS)
        (pos / BLOCK_SECTOR_SIZE - DIRECT_BLOCKS)
    else if pos / BLOCK_SECTOR_SIZE < DOUBLY_BLOCKS then
      cache_read st
        (cache_read st (ino.data.direct (DIRECT_BLOCKS + 1))
          ((pos / BLOCK_SECTOR_SIZE - INDIRECT_BLOCKS) / INDIRECT_BLOCK_SIZE))
        ((pos / BLOCK_SECTOR_SIZE - INDIRECT_BLOCKS) % INDIRECT_BLOCK_SIZE)
    else INVALID_SECTOR
  else INVALID_SECTOR

/-- Result of one allocate-and-zero loop (shared shape of the direct loop, the
single-indirect loop and the doubly-indirect inner loop of `inode_grow`). -/
structure LoopRes where
  st : FsState
  slots : Nat → Nat
  pos : Nat
  ns : Nat

/-- The allocate-and-zero loop of `inode_grow`, shared by all three tiers:
`while (pos < bound) { free_map_allocate (1, &slots[pos]); cache_write (slots[pos], zeros); ns--; pos++; if (ns == 0) break; }`.
In the direct tier `slots`/`pos` are `id->direct`/`id->blocks` (bound 12); in
the single-indirect tier they are `buffer`/`id->blocks - 12` (bound 128); in
the doubly-indirect inner loop they are `buffer2`/`index2` (bound 128). -/
def allocZeroLoopF : Nat → FsState → (Nat → Nat) → Nat → Nat → Nat → LoopRes
  | 0, st, slots, pos, _, ns => ⟨st, slots, pos, ns⟩
  | fuel + 1, st, slots, pos, bound, ns =>
    if pos < bound then
      let a := free_map_allocate st
      let slots' := Function.update slots pos a.1
      let st' := cache_write a.2 a.1 (fun _ => 0)
      if ns - 1 = 0 then ⟨st', slots', pos + 1, 0⟩
      else allocZeroLoopF fuel st' slots' (pos + 1) bound (ns - 1)
    else ⟨st, slots, pos, ns⟩

/-- Entry point with exactly enough fuel: since each iteration increments
`pos` and the loop stops at `pos = bound`, fuel `bound - pos` makes
`allocZeroLoop` perform precisely the C loop's iterations. -/
def allocZeroLoop (st : FsState) (slots : Nat → Nat) (pos bound ns : Nat) : LoopRes :=
  allocZeroLoopF (bound - pos) st slots pos bound ns

/-- The direct-tier phase of `inode_grow` (the first `while` loop). -/
def growDirectPhase (st : FsState) (id : inode_disk) (ns : Nat) :
    FsState × inode_disk × Nat :=
  let r := allocZeroLoop st id.direct id.blocks DIRECT_BLOCKS ns
  (r.st, { id with direct := r.slots, blocks := r.pos }, r.ns)

/-- The single-indirect phase of `inode_grow`: allocate the index sector on
first use (`id->blocks == DIRECT_BLOCKS`) or load it, run the fill loop, then
write the index sector back. -/
def growIndirectPhase (st : FsState) (id : inode_disk) (ns : Nat) :
    FsState × inode_disk × Nat :=
  let p : FsState × inode_disk × (Nat → Nat) :=
    if id.blocks = DIRECT_BLOCKS then
      let a := free_map_allocate st
      (a.2, { id with direct := Function.update id.direct DIRECT_BLOCKS a.1 },
       fun _ => 0)
    else (st, id, cache_read st (id.direct DIRECT_BLOCKS))
  let st := p.1
  let id := p.2.1
  let r := allocZeroLoop st p.2.2 (id.blocks - DIRECT_BLOCKS) INDIRECT_BLOCK_SIZE ns
  let id := { id with blocks := DIRECT_BLOCKS + r.pos }
  let st := cache_write r.st (id.direct DIRECT_BLOCKS) r.slots
  (st, id, r.ns)

/-- Result of the doubly-indirect outer loop of `inode_grow`. -/
structure OuterRes where
  st : FsState
  buf1 : Nat → Nat
  blocks : Nat
  ns : Nat

/-- The doubly-indirect outer loop of `inode_grow`
(`while (index1 < INDIRECT_BLOCK_SIZE) { ... }`).  `buf2` is the stack buffer
`buffer2`, which persists across outer iterations exactly as in the source. -/
def growDoublyOuterF : Nat → FsState → (Nat → Nat) → (Nat → Nat) →
    Nat → Nat → Nat → Nat → OuterRes
  | 0, st, buf1, _, blocks, ns, _, _ => ⟨st, buf1, blocks, ns⟩
  | fuel + 1, st, buf1, buf2, blocks, ns, idx1, idx2 =>
    if idx1 < INDIRECT_BLOCK_SIZE then
      let p : FsState × (Nat → Nat) × (Nat → Nat) :=
        if idx2 = 0 then
          let a := free_map_allocate st
          (a.2, Function.update buf1 idx1 a.1, buf2)
        else (st, buf1, cache_read st (buf1 idx1))
      let r := allocZeroLoop p.1 p.2.2 idx2 INDIRECT_BLOCK_SIZE ns
      let blocks := blocks + (r.pos - idx2)
      let st := cache_write r.st (p.2.1 idx1) r.slots
      if r.ns = 0 then ⟨st, p.2.1, blocks, 0⟩
      else growDoublyOuterF fuel st p.2.1 r.slots blocks r.ns (idx1 + 1) 0
    else ⟨st, buf1, blocks, ns⟩

/-- Entry point with exactly enough fuel (`idx1` increments each iteration and
the loop stops at `INDIRECT_BLOCK_SIZE`). -/
def growDoublyOuter (st : FsState) (buf1 buf2 : Nat → Nat)
    (blocks ns idx1 idx2 : Nat) : OuterRes :=
  growDoublyOuterF (INDIRECT_BLOCK_SIZE - idx1) st buf1 buf2 blocks ns idx1 idx2

/-- The doubly-indirect phase of `inode_grow`: allocate or load the top index
sector, run the outer loop, write the top index sector back. -/
def growDoublyPhase (st : FsState) (id : inode_disk) (ns : Nat) :
    FsState × inode_disk :=
  let p : FsState × inode_disk × (Nat → Nat) :=
    if id.blocks = INDIRECT_BLOCKS then
      let a := free_map_allocate st
      (a.2, { id with direct := Function.update id.direct (DIRECT_BLOCKS + 1) a.1 },
       fun _ => 0)
    else (st, id, cache_read st (id.direct (DIRECT_BLOCKS + 1)))
  let st := p.1
  let id := p.2.1
  let idx1 := (id.blocks - INDIRECT_BLOCKS) / INDIRECT_BLOCK_SIZE
  let idx2 := (id.blocks - INDIRECT_BLOCKS) % INDIRECT_BLOCK_SIZE
  let r := growDoublyOuter st p.2.2 (fun _ => 0) id.blocks ns idx1 idx2
  let id := { id with blocks := r.blocks }
  let st := cache_write r.st (id.direct (DIRECT_BLOCKS + 1)) r.buf1
  (st, id)

/-- `inode_grow (id, length)`: returns the new state, the updated record (the
caller assigns the returned length into `id->length` itself), and the returned
`off_t`.  `new_sectors` is the `size_t` difference of sector counts. -/
def inode_grow (st : FsState) (id : inode_disk) (length : Nat) :
    FsState × inode_disk × Nat :=
  let ns := (bytes_to_sectors length + SIZE_T_MOD - bytes_to_sectors id.length) % SIZE_T_MOD
  if ns = 0 then (st, id, length)
  else
    let d := growDirectPhase st id ns
    if d.2.2 = 0 then (d.1, d.2.1, length)
    else
      let i := growIndirectPhase d.1 d.2.1 d.2.2
      if i.2.2 = 0 then (i.1, i.2.1, length)
      else
        let dd := growDoublyPhase i.1 i.2.1 i.2.2
        (dd.1, dd.2, length)

/-- The release loop `for (i = 0; i < n; i++) free_map_release (buf[i], 1);`
used by `inode_free` for index-sector entries. -/
def releaseRangeF : Nat → FsState → (Nat → Nat) → Nat → Nat → FsState
  | 0, st, _, _, _ => st
  | fuel + 1, st, buf, i, n =>
    if i < n then releaseRangeF fuel (free_map_release st (buf i)) buf (i + 1) n
    else st

/-- Entry point with exactly enough fuel. -/
def releaseRange (st : FsState) (buf : Nat → Nat) (i n : Nat) : FsState :=
  releaseRangeF (n - i) st buf i n

/-- The direct-tier loop of `inode_free`
(`while (index < DIRECT_BLOCKS) { free_map_release (id->direct[index], 1); sectors--; index++; if (sectors == 0) return; }`).
Returns the state and the remaining `sectors` (0 means the early `return`
fired). -/
def freeDirectLoopF : Nat → FsState → inode_disk → Nat → Nat → FsState × Nat
  | 0, st, _, sectors, _ => (st, sectors)
  | fuel + 1, st, id, sectors, index =>
    if index < DIRECT_BLOCKS then
      let st := free_map_release st (id.direct index)
      if sectors - 1 = 0 then (st, 0)
      else freeDirectLoopF fuel st id (sectors - 1) (index + 1)
    else (st, sectors)

/-- Entry point with exactly enough fuel. -/
def freeDirectLoop (st : FsState) (id : inode_disk) (sectors index : Nat) :
    FsState × Nat :=
  freeDirectLoopF (DIRECT_BLOCKS - index) st id sectors index

/-- The doubly-indirect loop of `inode_free`: for each outer slot, release its
`to_free = min (sectors, 128)` data sectors then the slot's index sector. -/
def freeDoublyLoopF : Nat → FsState → (Nat → Nat) → Nat → Nat → Nat →
    FsState × Nat
  | 0, st, _, sectors, _, _ => (st, sectors)
  | fuel + 1, st, buf1, sectors, i, n =>
    if i < n then
      let to_free := min sectors INDIRECT_BLOCK_SIZE
      let buffer2 := cache_read st (buf1 i)
      let st := releaseRange st buffer2 0 to_free
      let st := free_map_release st (buf1 i)
      freeDoublyLoopF fuel st buf1 (sectors - to_free) (i + 1) n
    else (st, sectors)

/-- Entry point with exactly enough fuel. -/
def freeDoublyLoop (st : FsState) (buf1 : Nat → Nat) (sectors i n : Nat) :
    FsState × Nat :=
  freeDoublyLoopF (n - i) st buf1 sectors i n

/-- `inode_free`: release every allocated data sector and index sector implied
by `id->length`, direct tier first, then single-indirect data followed by its
index sector, then each doubly-indirect slot's data followed by the slot's
index sector, then the top doubly-indirect index sector. -/
def inode_free (st : FsState) (id : inode_disk) : FsState :=
  let sectors := bytes_to_sectors id.length
  if sectors = 0 then st
  else
    let d := freeDirectLoop st id sectors 0
    if d.2 = 0 then d.1
    else
      let st := d.1
      let sectors := d.2
      let buffer := cache_read st (id.direct DIRECT_BLOCKS)
      let to_free := min sectors INDIRECT_BLOCK_SIZE
      let st := releaseRange st buffer 0 to_free
      let sectors := sectors - to_free
      let st := free_map_release st (id.direct DIRECT_BLOCKS)
      if sectors = 0 then st
      else
        let buffer1 := cache_read st (id.direct (DIRECT_BLOCKS + 1))
        let doubly_blocks := (sectors + INDIRECT_BLOCK_SIZE - 1) / INDIRECT_BLOCK_SIZE
        let r := freeDoublyLoop st buffer1 sectors 0 doubly_blocks
        free_map_release r.1 (id.direct (DIRECT_BLOCKS + 1))

/-- Abstract encoding of an `inode_disk` record as a sector image, standing in
for the C byte layout (injective, with a matching decode). -/
def encodeInode (d : inode_disk) : Nat → Nat := fun i =>
  if i = 0 then d.length
  else if i = 1 then d.magic
  else if i = 2 then d.blocks
  else if i = 3 then (if d.is_dir then 1 else 0)
  else if 16 ≤ i then d.direct (i - 16)
  else 0

/-- Inverse of `encodeInode`: how `cache_read (inode->sector, &inode->data)`
recovers the record. -/
def decodeInode (f : Nat → Nat) : inode_disk :=
  { length := f 0, magic := f 1, direct := fun i => f (16 + i),
    blocks := f 2, is_dir := f 3 ≠ 0 }

/-- The scan of the `open_inodes` list in `inode_open`: find the first handle
with the given sector, increment its `open_cnt` (via `inode_reopen`) and return
it; otherwise report absence.  The returned list reflects the in-place
mutation of the shared handle. -/
def openExisting (lst : List inode) (sector : Nat) : List inode × Option inode :=
  match lst with
  | [] => ([], none)
  | i :: rest =>
    if i.sector = sector then
      let i' := { i with open_cnt := i.open_cnt + 1 }
      (i' :: rest, some i')
    else
      let r := openExisting rest sector
      (i :: r.1, r.2)

/-- `inode_open`: return the already-open handle (reopened) when present,
otherwise push a fresh handle reading its record from disk
(`list_push_front`; `malloc` assumed to succeed). -/
def inode_open (st : FsState) (lst : List inode) (sector : Nat) :
    List inode × inode :=
  let r := openExisting lst sector
  match r.2 with
  | some i => (r.1, i)
  | none =>
    let i : inode :=
      { sector := sector, open_cnt := 1, removed := false, deny_write_cnt := 0,
        data := decodeInode (cache_read st sector) }
    (i :: lst, i)

/-- `inode_reopen`: increment `open_cnt` unless the handle is null. -/
def inode_reopen (o : Option inode) : Option inode :=
  match o with
  | none => none
  | some i => some { i with open_cnt := i.open_cnt + 1 }

/-- `list_remove` on the registry, identifying the handle by its sector. -/
def removeFirstBySector (lst : List inode) (s : Nat) : List inode :=
  match lst with
  | [] => []
  | i :: rest => if i.sector = s then rest else i :: removeFirstBySector rest s

/-- Reflect an in-place mutation of a shared handle into the registry list. -/
def setFirstBySector (lst : List inode) (x : inode) : List inode :=
  match lst with
  | [] => []
  | i :: rest => if i.sector = x.sector then x :: rest
                 else i :: setFirstBySector rest x

/-- `inode_close`: ignore null; decrement `open_cnt`; on the last close either
release the record's sector and all blocks (if removed) or flush the record to
disk, and drop the handle from the registry. -/
def inode_close (st : FsState) (lst : List inode) (o : Option inode) :
    FsState × List inode :=
  match o with
  | none => (st, lst)
  | some i =>
    let i := { i with open_cnt := i.open_cnt - 1 }
    if i.open_cnt = 0 then
      let lst := removeFirstBySector lst i.sector
      if i.removed then
        let st := free_map_release st i.sector
        (inode_free st i.data, lst)
      else
        (cache_write st i.sector (encodeInode i.data), lst)
    else (st, setFirstBySector lst i)

/-- `inode_remove`: set the removed flag (takes no disk/allocator state). -/
def inode_remove (ino : inode) : inode := { ino with removed := true }

/-- `inode_get_inumber`. -/
def inode_get_inumber (ino : inode) : Nat := ino.sector

/-- `inode_get_open_cnt`. -/
def inode_get_open_cnt (ino : inode) : Int := ino.open_cnt

/-- `inode_is_dir`. -/
def inode_is_dir (ino : inode) : Bool := ino.data.is_dir

/-- `inode_is_removed`. -/
def inode_is_removed (ino : inode) : Bool := ino.removed

/-- The loop of `inode_read_at`, accumulating the bytes copied into the
caller's buffer.  Both the full-sector path and the bounce path copy
`disk[sector_idx][sector_ofs .. sector_ofs + chunk)`; the bounce `malloc` is
assumed to succeed. -/
def inode_read_loopF : Nat → FsState → inode → Nat → Nat → List Nat → List Nat
  | 0, _, _, _, _, acc => acc
  | fuel + 1, st, ino, size, offset, acc =>
    if 0 < size then
      let sector_idx := byte_to_sector st ino offset
      let sector_ofs := offset % BLOCK_SECTOR_SIZE
      let inode_left : Int := (inode_length ino : Int) - (offset : Int)
      let sector_left : Int := (BLOCK_SECTOR_SIZE : Int) - (sector_ofs : Int)
      let min_left : Int := min inode_left sector_left
      let chunk_size : Int := min (size : Int) min_left
      if chunk_size ≤ 0 then acc
      else
        let n := chunk_size.toNat
        inode_read_loopF fuel st ino (size - n) (offset + n)
          (acc ++ (List.range n).map fun j => st.disk sector_idx (sector_ofs + j))
    else acc

/-- Entry point with sufficient fuel: every iteration removes at least one
byte from `size`, so fuel `size` covers the whole loop. -/
def inode_read_loop (st : FsState) (ino : inode) (size offset : Nat)
    (acc : List Nat) : List Nat :=
  inode_read_loopF size st ino size offset acc

/-- `inode_read_at`: returns the bytes read (their count is the returned
`bytes_read`). -/
def inode_read_at (st : FsState) (ino : inode) (size offset : Nat) : List Nat :=
  inode_read_loop st ino size offset []

/-- `inode_create (sector, length, is_dir)`: build a zeroed record, grow it to
`length`, persist it (`calloc` assumed to succeed, so the result is `true`). -/
def inode_create (st : FsState) (sector length : Nat) (is_dir : Bool) :
    FsState × Bool :=
  let d : inode_disk :=
    { length := 0, magic := INODE_MAGIC, direct := fun _ => 0, blocks := 0,
      is_dir := is_dir }
  let g := inode_grow st d length
  let d := { g.2.1 with length := g.2.2 }
  (cache_write g.1 sector (encodeInode d), true)

/-! ## Helper lemmas about the resolver -/

theorem byte_to_sector_of_le (st : FsState) (ino : inode) (pos : Nat)
    (h : ino.data.length ≤ pos) : byte_to_sector st ino pos = INVALID_SECTOR := by
  unfold byte_to_sector
  rw [if_neg (by omega)]

theorem byte_to_sector_direct_eq (st : FsState) (ino : inode) (pos : Nat)
    (h : pos < ino.data.length) (h2 : pos / BLOCK_SECTOR_SIZE < DIRECT_BLOCKS) :
    byte_to_sector st ino pos = ino.data.direct (pos / BLOCK_SECTOR_SIZE) := by
  unfold byte_to_sector
  rw [if_pos h, if_pos h2]

theorem byte_to_sector_indirect_eq (st : FsState) (ino : inode) (pos : Nat)
    (h : pos < ino.data.length) (h2 : DIRECT_BLOCKS ≤ pos / BLOCK_SECTOR_SIZE)
    (h3 : pos / BLOCK_SECTOR_SIZE < INDIRECT_BLOCKS) :
    byte_to_sector st ino pos =
      st.disk (ino.data.direct DIRECT_BLOCKS)
        (pos / BLOCK_SECTOR_SIZE - DIRECT_BLOCKS) := by
  unfold byte_to_sector
  rw [if_pos h, if_neg (by omega), if_pos h3]
  rfl

theorem byte_to_sector_doubly_eq (st : FsState) (ino : inode) (pos : Nat)
    (h : pos < ino.data.length) (h2 : INDIRECT_BLOCKS ≤ pos / BLOCK_SECTOR_SIZE)
    (h3 : pos / BLOCK_SECTOR_SIZE < DOUBLY_BLOCKS) :
    byte_to_sector st ino pos =
      st.disk
        (st.disk (ino.data.direct (DIRECT_BLOCKS + 1))
          ((pos / BLOCK_SECTOR_SIZE - INDIRECT_BLOCKS) / INDIRECT_BLOCK_SIZE))
        ((pos / BLOCK_SECTOR_SIZE - INDIRECT_BLOCKS) % INDIRECT_BLOCK_SIZE) := by
  have h4 : ¬ pos / BLOCK_SECTOR_SIZE < DIRECT_BLOCKS := by
    simp only [DIRECT_BLOCKS, INDIRECT_BLOCKS] at *
    omega
  have h5 : ¬ pos / BLOCK_SECTOR_SIZE < INDIRECT_BLOCKS := by omega
  unfold byte_to_sector
  rw [if_pos h, if_neg h4, if_neg h5, if_pos h3]
  rfl

/-! ## Claim theorems: the block-index resolver -/

/-- Claim C3: for every handle and byte offset `pos`, `byte_to_sector` returns
the invalid sector value when `pos ≥ length`; otherwise, with
`index = pos / BLOCK_SECTOR_SIZE`, it returns `direct[index]` for
`index < 12`, entry `index - 12` of the single-indirect sector for
`12 ≤ index < 140`, and the `inner`-th entry of the `outer`-th single-indirect
sector reached through the doubly-indirect sector for `140 ≤ index < 16524`,
with `outer = (index - 140) / 128` and `inner = (index - 140) % 128`.  No
mutation occurs: the function consumes the state and returns only a sector
number. -/
theorem C3_byte_to_sector_spec (st : FsState) (ino : inode) (pos : Nat) :
    (ino.data.length ≤ pos → byte_to_sector st ino pos = INVALID_SECTOR) ∧
    (pos < ino.data.length → pos / BLOCK_SECTOR_SIZE < DIRECT_BLOCKS →
      byte_to_sector st ino pos = ino.data.direct (pos / BLOCK_SECTOR_SIZE)) ∧
    (pos < ino.data.length → DIRECT_BLOCKS ≤ pos / BLOCK_SECTOR_SIZE →
      pos / BLOCK_SECTOR_SIZE < INDIRECT_BLOCKS →
      byte_to_sector st ino pos =
        st.disk (ino.data.direct DIRECT_BLOCKS)
          (pos / BLOCK_SECTOR_SIZE - DIRECT_BLOCKS)) ∧
    (pos < ino.data.length → INDIRECT_BLOCKS ≤ pos / BLOCK_SECTOR_SIZE →
      pos / BLOCK_SECTOR_SIZE < DOUBLY_BLOCKS →
      byte_to_sector st ino pos =
        st.disk
          (st.disk (ino.data.direct (DIRECT_BLOCKS + 1))
            ((pos / BLOCK_SECTOR_SIZE - INDIRECT_BLOCKS) / INDIRECT_BLOCK_SIZE))
          ((pos / BLOCK_SECTOR_SIZE - INDIRECT_BLOCKS) % INDIRECT_BLOCK_SIZE)) :=
  ⟨byte_to_sector_of_le st ino pos,
   byte_to_sector_direct_eq st ino pos,
   byte_to_sector_indirect_eq st ino pos,
   byte_to_sector_doubly_eq st ino pos⟩

/-- Witness for C3 at a concrete state: offset `76800` (sector index 150,
doubly-indirect tier, outer slot 0, inner entry 10) and offset `102400`
(at the length, hence invalid). -/
theorem C3_byte_to_sector_spec_witness :
    (76800 : Nat) <
        (inode.mk 0 1 false 0
          (inode_disk.mk 102400 INODE_MAGIC (fun j => 100 + j) 200 false)).data.length ∧
    byte_to_sector ⟨fun s j => s + j, [], []⟩
        (inode.mk 0 1 false 0
          (inode_disk.mk 102400 INODE_MAGIC (fun j => 100 + j) 200 false)) 76800 = 123 ∧
    byte_to_sector ⟨fun s j => s + j, [], []⟩
        (inode.mk 0 1 false 0
          (inode_disk.mk 102400 INODE_MAGIC (fun j => 100 + j) 200 false)) 102400 =
      INVALID_SECTOR := by
  refine ⟨by norm_num, ?_, ?_⟩
  · have h := (C3_byte_to_sector_spec ⟨fun s j => s + j, [], []⟩
      (inode.mk 0 1 false 0
        (inode_disk.mk 102400 INODE_MAGIC (fun j => 100 + j) 200 false)) 76800).2.2.2
    rw [h (by norm_num) (by decide) (by decide)]
    decide
  · exact (C3_byte_to_sector_spec _ _ _).1 (by norm_num)

/-! ## Claim theorems: null-handle safety -/

/-- Claim C10: `inode_close` of a null handle returns immediately with no
effect on the state or the registry, and `inode_reopen` of a null handle
returns null (incrementing no count: no handle in the registry changes). -/
theorem C10_null_handles (st : FsState) (lst : List inode) :
    inode_close st lst none = (st, lst) ∧ inode_reopen none = none :=
  ⟨rfl, rfl⟩

/-! ## Claim theorems: the deny-write gate -/

/-- Claim C5 concerns growth when the free-space allocator is exhausted.  The
code does not check the allocator's success: starting from a freshly created
zero-length record and an exhausted allocator, `inode_grow (id, 1)` does not
abort — it stores the distinguished invalid sector value into the block map
slot `direct[0]`, counts it as an allocated block (`blocks = 1`), writes a
sector of zeros to the invalid sector number, and returns the full target
length `1` as if it had succeeded.  This run evaluates the code at that
failing input, refuting the claimed behaviour of the source (the spec itself
flags this as a fix required per §4.2). -/
theorem C5_grow_alloc_failure_behavior :
    (inode_grow ⟨fun _ _ => 7, [], []⟩
        (inode_disk.mk 0 INODE_MAGIC (fun _ => 0) 0 false) 1).2.2 = 1 ∧
    (inode_grow ⟨fun _ _ => 7, [], []⟩
        (inode_disk.mk 0 INODE_MAGIC (fun _ => 0) 0 false) 1).2.1.blocks = 1 ∧
    (inode_grow ⟨fun _ _ => 7, [], []⟩
        (inode_disk.mk 0 INODE_MAGIC (fun _ => 0) 0 false) 1).2.1.direct 0 =
      INVALID_SECTOR ∧
    (inode_grow ⟨fun _ _ => 7, [], []⟩
        (inode_disk.mk 0 INODE_MAGIC (fun _ => 0) 0 false) 1).1.disk
        INVALID_SECTOR 0 = 0 := by
  refine ⟨rfl, rfl, rfl, ?_⟩
  show Function.update (fun _ _ => 7) INVALID_SECTOR (fun _ => (0 : Nat))
      INVALID_SECTOR 0 = 0
  rw [Function.update_same]

/-! ## Helper lemmas: growth phases never touch `length` -/

theorem growDirectPhase_length (st : FsState) (id : inode_disk) (ns : Nat) :
    (growDirectPhase st id ns).2.1.length = id.length := rfl

theorem growIndirectPhase_length (st : FsState) (id : inode_disk) (ns : Nat) :
    (growIndirectPhase st id ns).2.1.length = id.length := by
  unfold growIndirectPhase
  by_cases h : id.blocks = DIRECT_BLOCKS <;> simp [h]

theorem growDoublyPhase_length (st : FsState) (id : inode_disk) (ns : Nat) :
    (growDoublyPhase st id ns).2.length = id.length := by
  unfold growDoublyPhase
  by_cases h : id.blocks = INDIRECT_BLOCKS <;> simp [h]

/-! ## Claim theorems: growth frame conditions (C9) -/

/-- Claim C9: `inode_grow` never modifies the record's `length` field (the
caller assigns the returned value), it always returns the requested target
length, and when the target needs no new sector
(`ceil(target/512) = ceil(current/512)`, via the `size_t` difference being 0)
it allocates nothing, writes nothing and returns the target with the state and
the record entirely unchanged. -/
theorem C9_grow_preserves_length (st : FsState) (id : inode_disk) (target : Nat) :
    (inode_grow st id target).2.1.length = id.length ∧
    (inode_grow st id target).2.2 = target ∧
    (bytes_to_sectors target = bytes_to_sectors id.length →
      inode_grow st id target = (st, id, target)) := by
  refine ⟨?_, ?_, ?_⟩
  · unfold inode_grow
    dsimp only
    split_ifs <;>
      simp [growDirectPhase_length, growIndirectPhase_length, growDoublyPhase_length]
  · unfold inode_grow
    dsimp only
    split_ifs <;> rfl
  · intro h
    unfold inode_grow
    rw [h, Nat.add_sub_cancel_left, Nat.mod_self]
    rfl

/-- Witness for C9: growing a 50-byte file to 100 bytes stays inside the one
already-allocated sector and is the identity. -/
theorem C9_grow_preserves_length_witness :
    bytes_to_sectors 100 = bytes_to_sectors 50 ∧
    inode_grow ⟨fun _ _ => 3, [42], []⟩
        (inode_disk.mk 50 INODE_MAGIC (fun j => 60 + j) 1 false) 100 =
      (⟨fun _ _ => 3, [42], []⟩,
       inode_disk.mk 50 INODE_MAGIC (fun j => 60 + j) 1 false, 100) :=
  ⟨by decide,
   (C9_grow_preserves_length ⟨fun _ _ => 3, [42], []⟩
     (inode_disk.mk 50 INODE_MAGIC (fun j => 60 + j) 1 false) 100).2.2 (by decide)⟩

/-! ## Helper lemmas: the open-inode registry -/

/-- First handle in the registry with the given sector number. -/
def findSector (lst : List inode) (s : Nat) : Option inode :=
  match lst with
  | [] => none
  | i :: rest => if i.sector = s then some i else findSector rest s

theorem findSector_sector (lst : List inode) (s : Nat) (i : inode)
    (h : findSector lst s = some i) : i.sector = s := by
  induction lst with
  | nil => simp [findSector] at h
  | cons a rest ih =>
    by_cases ha : a.sector = s
    · simp only [findSector, if_pos ha] at h
      cases h
      exact ha
    · simp only [findSector, if_neg ha] at h
      exact ih h

theorem setFirstBySector_map_sector (lst : List inode) (x : inode) :
    (setFirstBySector lst x).map inode.sector = lst.map inode.sector := by
  induction lst with
  | nil => rfl
  | cons a rest ih =>
    by_cases ha : a.sector = x.sector
    · simp [setFirstBySector, ha]
    · simp [setFirstBySector, ha, ih]

theorem openExisting_found (lst : List inode) (s : Nat) (i : inode)
    (h : findSector lst s = some i) :
    openExisting lst s =
      (setFirstBySector lst { i with open_cnt := i.open_cnt + 1 },
       some { i with open_cnt := i.open_cnt + 1 }) := by
  induction lst with
  | nil => simp [findSector] at h
  | cons a rest ih =>
    by_cases ha : a.sector = s
    · simp only [findSector, if_pos ha] at h
      cases h
      simp [openExisting, setFirstBySector, ha]
    · simp only [findSector, if_neg ha] at h
      have hx : a.sector ≠ i.sector := by
        rw [findSector_sector rest s i h]; exact ha
      simp [openExisting, ha, ih h, setFirstBySector, hx]

theorem setFirstBySector_length (lst : List inode) (x : inode) :
    (setFirstBySector lst x).length = lst.length := by
  induction lst with
  | nil => rfl
  | cons a rest ih =>
    by_cases ha : a.sector = x.sector <;> simp [setFirstBySector, ha, ih]

/-! ## Claim theorems: registry uniqueness (C6) -/

/-- Claim C6: when a handle for sector `s` is already in the open-inode
registry, `inode_open (s)` returns that very handle with its reference count
incremented by one (reflected in place in the registry) and constructs no new
handle: the registry's sector list — and in particular its length and its
property of holding at most one handle per sector — is exactly preserved. -/
theorem C6_open_returns_existing (st : FsState) (lst : List inode) (s : Nat)
    (i : inode) (h : findSector lst s = some i) :
    inode_open st lst s =
      (setFirstBySector lst { i with open_cnt := i.open_cnt + 1 },
       { i with open_cnt := i.open_cnt + 1 }) ∧
    i.sector = s ∧
    (inode_open st lst s).1.map inode.sector = lst.map inode.sector ∧
    (inode_open st lst s).1.length = lst.length := by
  have hopen : inode_open st lst s =
      (setFirstBySector lst { i with open_cnt := i.open_cnt + 1 },
       { i with open_cnt := i.open_cnt + 1 }) := by
    unfold inode_open
    rw [openExisting_found lst s i h]
  refine ⟨hopen, findSector_sector lst s i h, ?_, ?_⟩
  · rw [hopen]
    exact setFirstBySector_map_sector lst _
  · rw [hopen]
    exact setFirstBySector_length lst _

/-- Witness for C6: a two-handle registry, opening the second handle's
sector. -/
theorem C6_open_returns_existing_witness :
    findSector
        [inode.mk 5 1 false 0 (inode_disk.mk 0 0 (fun _ => 0) 0 false),
         inode.mk 9 2 false 0 (inode_disk.mk 0 0 (fun _ => 0) 0 false)] 9 =
      some (inode.mk 9 2 false 0 (inode_disk.mk 0 0 (fun _ => 0) 0 false)) ∧
    inode_open ⟨fun _ _ => 0, [], []⟩
        [inode.mk 5 1 false 0 (inode_disk.mk 0 0 (fun _ => 0) 0 false),
         inode.mk 9 2 false 0 (inode_disk.mk 0 0 (fun _ => 0) 0 false)] 9 =
      (setFirstBySector
        [inode.mk 5 1 false 0 (inode_disk.mk 0 0 (fun _ => 0) 0 false),
         inode.mk 9 2 false 0 (inode_disk.mk 0 0 (fun _ => 0) 0 false)]
        (inode.mk 9 3 false 0 (inode_disk.mk 0 0 (fun _ => 0) 0 false)),
       inode.mk 9 3 false 0 (inode_disk.mk 0 0 (fun _ => 0) 0 false)) :=
  ⟨rfl,
   (C6_open_returns_existing ⟨fun _ _ => 0, [], []⟩
     [inode.mk 5 1 false 0 (inode_disk.mk 0 0 (fun _ => 0) 0 false),
      inode.mk 9 2 false 0 (inode_disk.mk 0 0 (fun _ => 0) 0 false)] 9
     (inode.mk 9 2 false 0 (inode_disk.mk 0 0 (fun _ => 0) 0 false)) rfl).1⟩

/-! ## Claim theorems: deferred deletion (C7) -/

/-- Claim C7: `inode_remove` only sets the removed flag (it takes no disk or
allocator state, so it cannot release storage); a close with other openers
remaining (count > 1) merely decrements the count, releasing nothing and
writing nothing; the last close of a removed inode releases the record's own
sector and runs the block-release engine; the last close of a non-removed
inode flushes the record to its sector and releases nothing.  Hence an inode
removed while a second opener holds it keeps its sectors until that opener's
close. -/
theorem C7_remove_defers_release (st : FsState) (lst : List inode) (ino : inode) :
    ((inode_remove ino).removed = true ∧
     (inode_remove ino).sector = ino.sector ∧
     (inode_remove ino).open_cnt = ino.open_cnt ∧
     (inode_remove ino).deny_write_cnt = ino.deny_write_cnt ∧
     (inode_remove ino).data = ino.data) ∧
    (1 < ino.open_cnt →
      inode_close st lst (some ino) =
        (st, setFirstBySector lst { ino with open_cnt := ino.open_cnt - 1 })) ∧
    (ino.open_cnt = 1 → ino.removed = true →
      inode_close st lst (some ino) =
        (inode_free (free_map_release st ino.sector) ino.data,
         removeFirstBySector lst ino.sector)) ∧
    (ino.open_cnt = 1 → ino.removed = false →
      inode_close st lst (some ino) =
        (cache_write st ino.sector (encodeInode ino.data),
         removeFirstBySector lst ino.sector)) := by
  refine ⟨⟨rfl, rfl, rfl, rfl, rfl⟩, ?_, ?_, ?_⟩
  · intro h
    unfold inode_close
    dsimp only
    rw [if_neg (by omega)]
  · intro h hr
    unfold inode_close
    dsimp only
    rw [h]
    rw [if_pos (by norm_num), if_pos hr]
  · intro h hr
    unfold inode_close
    dsimp only
    rw [h]
    rw [if_pos (by norm_num), if_neg (by rw [hr]; exact Bool.false_ne_true)]

/-- Witness for C7: a doubly-opened removed inode's first close releases
nothing; the second close (count 1) releases; a last close of a non-removed
inode flushes. -/
theorem C7_remove_defers_release_witness :
    (1 : Int) < 2 ∧
    inode_close ⟨fun _ _ => 0, [], []⟩
        [inode.mk 4 2 true 0 (inode_disk.mk 10 0 (fun _ => 8) 1 false)]
        (some (inode.mk 4 2 true 0 (inode_disk.mk 10 0 (fun _ => 8) 1 false))) =
      (⟨fun _ _ => 0, [], []⟩,
       setFirstBySector
         [inode.mk 4 2 true 0 (inode_disk.mk 10 0 (fun _ => 8) 1 false)]
         (inode.mk 4 1 true 0 (inode_disk.mk 10 0 (fun _ => 8) 1 false))) ∧
    inode_close ⟨fun _ _ => 0, [], []⟩ []
        (some (inode.mk 4 1 true 0 (inode_disk.mk 10 0 (fun _ => 8) 1 false))) =
      (inode_free (free_map_release ⟨fun _ _ => 0, [], []⟩ 4)
         (inode_disk.mk 10 0 (fun _ => 8) 1 false),
       removeFirstBySector [] 4) ∧
    inode_close ⟨fun _ _ => 0, [], []⟩ []
        (some (inode.mk 4 1 false 0 (inode_disk.mk 10 0 (fun _ => 8) 1 false))) =
      (cache_write ⟨fun _ _ => 0, [], []⟩ 4
         (encodeInode (inode_disk.mk 10 0 (fun _ => 8) 1 false)),
       removeFirstBySector [] 4) := by
  refine ⟨by norm_num, ?_, ?_, ?_⟩
  · exact (C7_remove_defers_release ⟨fun _ _ => 0, [], []⟩
      [inode.mk 4 2 true 0 (inode_disk.mk 10 0 (fun _ => 8) 1 false)]
      (inode.mk 4 2 true 0 (inode_disk.mk 10 0 (fun _ => 8) 1 false))).2.1
      (by norm_num)
  · exact (C7_remove_defers_release ⟨fun _ _ => 0, [], []⟩ []
      (inode.mk 4 1 true 0 (inode_disk.mk 10 0 (fun _ => 8) 1 false))).2.2.1
      rfl rfl
  · exact (C7_remove_defers_release ⟨fun _ _ => 0, [], []⟩ []
      (inode.mk 4 1 false 0 (inode_disk.mk 10 0 (fun _ => 8) 1 false))).2.2.2
      rfl rfl

/-! ## Basic state-projection lemmas -/

@[simp] theorem cache_write_disk (st : FsState) (s : Nat) (c : Nat → Nat) :
    (cache_write st s c).disk = Function.update st.disk s c := rfl

@[simp] theorem cache_write_freeList (st : FsState) (s : Nat) (c : Nat → Nat) :
    (cache_write st s c).freeList = st.freeList := rfl

@[simp] theorem cache_write_released (st : FsState) (s : Nat) (c : Nat → Nat) :
    (cache_write st s c).released = st.released := rfl

@[simp] theorem free_map_release_disk (st : FsState) (s : Nat) :
    (free_map_release st s).disk = st.disk := rfl

@[simp] theorem free_map_release_freeList (st : FsState) (s : Nat) :
    (free_map_release st s).freeList = st.freeList := rfl

@[simp] theorem free_map_release_released (st : FsState) (s : Nat) :
    (free_map_release st s).released = st.released ++ [s] := rfl

/-! ## Characterization of the shared allocate-and-zero loop -/

/-- Full characterization of `allocZeroLoopF` under sufficient fuel and a
sufficiently long free list: it pops `t = min ns (bound - pos)` sectors off the
free list, stores them in `slots[pos .. pos+t)` in order, zero-fills each of
them on disk, touches nothing else, and advances `pos`/`ns` accordingly. -/
theorem allocZeroLoopF_spec (bound : Nat) :
    ∀ (fuel : Nat) (st : FsState) (slots : Nat → Nat) (pos ns : Nat),
    bound - pos ≤ fuel → 1 ≤ ns →
    min ns (bound - pos) ≤ st.freeList.length →
    (allocZeroLoopF fuel st slots pos bound ns).pos = pos + min ns (bound - pos) ∧
    (allocZeroLoopF fuel st slots pos bound ns).ns = ns - min ns (bound - pos) ∧
    (allocZeroLoopF fuel st slots pos bound ns).st.freeList =
      st.freeList.drop (min ns (bound - pos)) ∧
    (allocZeroLoopF fuel st slots pos bound ns).st.released = st.released ∧
    (∀ j, j < pos ∨ pos + min ns (bound - pos) ≤ j →
      (allocZeroLoopF fuel st slots pos bound ns).slots j = slots j) ∧
    (∀ j, pos ≤ j → j < pos + min ns (bound - pos) →
      (allocZeroLoopF fuel st slots pos bound ns).slots j =
        st.freeList.getD (j - pos) INVALID_SECTOR) ∧
    (∀ s, s ∉ st.freeList.take (min ns (bound - pos)) →
      (allocZeroLoopF fuel st slots pos bound ns).st.disk s = st.disk s) ∧
    (∀ s ∈ st.freeList.take (min ns (bound - pos)), ∀ b,
      (allocZeroLoopF fuel st slots pos bound ns).st.disk s b = 0) := by
  intro fuel
  induction fuel with
  | zero =>
    intro st slots pos ns hf _ _
    have ht : min ns (bound - pos) = 0 := by omega
    rw [ht]
    refine ⟨by simp [allocZeroLoopF], by simp [allocZeroLoopF],
      by simp [allocZeroLoopF], rfl, fun j _ => rfl, ?_, fun s _ => rfl, ?_⟩
    · intro j h1 h2
      omega
    · intro s hs
      simp at hs
  | succ f ih =>
    intro st slots pos ns hf hns hlen
    by_cases hpos : pos < bound
    · have ht1 : 1 ≤ min ns (bound - pos) := by omega
      cases hfl : st.freeList with
      | nil =>
        rw [hfl] at hlen
        simp at hlen
        omega
      | cons a rest =>
        have hred : allocZeroLoopF (f + 1) st slots pos bound ns =
            (if ns - 1 = 0 then
              (⟨cache_write { st with freeList := rest } a (fun _ => 0),
                Function.update slots pos a, pos + 1, 0⟩ : LoopRes)
             else allocZeroLoopF f
               (cache_write { st with freeList := rest } a (fun _ => 0))
               (Function.update slots pos a) (pos + 1) bound (ns - 1)) := by
          simp only [allocZeroLoopF, if_pos hpos, free_map_allocate, hfl]
        by_cases hns1 : ns - 1 = 0
        · have hns' : ns = 1 := by omega
          have ht : min ns (bound - pos) = 1 := by omega
          rw [hred, if_pos hns1, ht]
          refine ⟨by simp, by simp [hns'], by simp, rfl, ?_, ?_, ?_, ?_⟩
          · intro j hj
            have hj' : j ≠ pos := by omega
            simp [Function.update_noteq hj']
          · intro j hj1 hj2
            have hj : j = pos := by omega
            subst hj
            simp
          · intro s hs
            simp at hs
            simp [Function.update_noteq hs]
          · intro s hs b
            simp at hs
            subst hs
            simp
        · have hns2 : 2 ≤ ns := by omega
          have ht : min (ns - 1) (bound - (pos + 1)) = min ns (bound - pos) - 1 := by
            omega
          have hlen' : min (ns - 1) (bound - (pos + 1)) ≤ rest.length := by
            rw [hfl] at hlen
            simp at hlen
            omega
          obtain ⟨ih1, ih2, ih3, ih4, ih5, ih6, ih7, ih8⟩ :=
            ih (cache_write { st with freeList := rest } a (fun _ => 0))
              (Function.update slots pos a) (pos + 1) (ns - 1)
              (by omega) (by omega) hlen'
          rw [hred, if_neg hns1]
          have hsplit : min ns (bound - pos) = (min ns (bound - pos) - 1) + 1 := by
            omega
          have htake : (a :: rest).take (min ns (bound - pos)) =
              a :: rest.take (min ns (bound - pos) - 1) := by
            conv_lhs => rw [hsplit]
            rw [List.take_succ_cons]
          refine ⟨by rw [ih1]; omega, by rw [ih2]; omega, ?_, ?_, ?_, ?_, ?_, ?_⟩
          · rw [ih3, ht]
            simp only [cache_write_freeList]
            conv_rhs => rw [hsplit]
            rw [List.drop_succ_cons]
          · rw [ih4]; rfl
          · intro j hj
            rw [ih5 j (by rw [ht]; omega)]
            have hj' : j ≠ pos := by omega
            exact Function.update_noteq hj' _ _
          · intro j hj1 hj2
            by_cases hjp : j = pos
            · subst hjp
              rw [ih5 j (by omega)]
              simp
            · rw [ih6 j (by omega) (by rw [ht]; omega)]
              simp only [cache_write_freeList]
              have hj3 : j - pos = (j - (pos + 1)) + 1 := by omega
              rw [hj3, List.getD_cons_succ]
          · intro s hs
            rw [htake] at hs
            simp only [List.mem_cons, not_or] at hs
            rw [ih7 s (by rw [ht]; exact hs.2)]
            simp only [cache_write_disk]
            exact Function.update_noteq hs.1 _ _
          · intro s hs b
            rw [htake] at hs
            simp only [List.mem_cons] at hs
            by_cases hmem : s ∈ rest.take (min ns (bound - pos) - 1)
            · exact ih8 s (by rw [ht]; exact hmem) b
            · have hsa : s = a := by tauto
              subst hsa
              rw [ih7 s (by rw [ht]; exact hmem)]
              simp
    · have ht : min ns (bound - pos) = 0 := by omega
      rw [ht]
      refine ⟨by simp [allocZeroLoopF, hpos], by simp [allocZeroLoopF, hpos],
        by simp [allocZeroLoopF, hpos], by simp [allocZeroLoopF, hpos],
        ?_, ?_, ?_, ?_⟩
      · intro j _
        simp [allocZeroLoopF, hpos]
      · intro j h1 h2
        omega
      · intro s _
        simp [allocZeroLoopF, hpos]
      · intro s hs
        simp at hs

/-- `allocZeroLoopF_spec` specialized to the wrapper `allocZeroLoop`. -/
theorem allocZeroLoop_spec (st : FsState) (slots : Nat → Nat) (pos bound ns : Nat)
    (hns : 1 ≤ ns) (hlen : min ns (bound - pos) ≤ st.freeList.length) :
    (allocZeroLoop st slots pos bound ns).pos = pos + min ns (bound - pos) ∧
    (allocZeroLoop st slots pos bound ns).ns = ns - min ns (bound - pos) ∧
    (allocZeroLoop st slots pos bound ns).st.freeList =
      st.freeList.drop (min ns (bound - pos)) ∧
    (allocZeroLoop st slots pos bound ns).st.released = st.released ∧
    (∀ j, j < pos ∨ pos + min ns (bound - pos) ≤ j →
      (allocZeroLoop st slots pos bound ns).slots j = slots j) ∧
    (∀ j, pos ≤ j → j < pos + min ns (bound - pos) →
      (allocZeroLoop st slots pos bound ns).slots j =
        st.freeList.getD (j - pos) INVALID_SECTOR) ∧
    (∀ s, s ∉ st.freeList.take (min ns (bound - pos)) →
      (allocZeroLoop st slots pos bound ns).st.disk s = st.disk s) ∧
    (∀ s ∈ st.freeList.take (min ns (bound - pos)), ∀ b,
      (allocZeroLoop st slots pos bound ns).st.disk s b = 0) :=
  allocZeroLoopF_spec bound (bound - pos) st slots pos ns (Nat.le_refl _) hns hlen

/-! ## The abstract view of the block map -/

/-- The physical data sector holding logical sector index `k` of a record, read
through the tier structure (this is `byte_to_sector` at sector granularity,
without the length/capacity guards). -/
def dataSector (st : FsState) (id : inode_disk) (k : Nat) : Nat :=
  if k < DIRECT_BLOCKS then id.direct k
  else if k < INDIRECT_BLOCKS then
    st.disk (id.direct DIRECT_BLOCKS) (k - DIRECT_BLOCKS)
  else
    st.disk
      (st.disk (id.direct (DIRECT_BLOCKS + 1))
        ((k - INDIRECT_BLOCKS) / INDIRECT_BLOCK_SIZE))
      ((k - INDIRECT_BLOCKS) % INDIRECT_BLOCK_SIZE)

/-- Number of doubly-indirect outer slots in use when `N` data sectors are
allocated (`ceil ((N - 140) / 128)`). -/
def outerCnt (N : Nat) : Nat :=
  (N - INDIRECT_BLOCKS + (INDIRECT_BLOCK_SIZE - 1)) / INDIRECT_BLOCK_SIZE

/-- `s` is one of the index sectors of a record with `N` allocated data
sectors: the single-indirect sector, the doubly-indirect top sector, or one of
its in-use outer-slot sectors. -/
def IdxSector (st : FsState) (id : inode_disk) (N s : Nat) : Prop :=
  (DIRECT_BLOCKS < N ∧ s = id.direct DIRECT_BLOCKS) ∨
  (INDIRECT_BLOCKS < N ∧ s = id.direct (DIRECT_BLOCKS + 1)) ∨
  (INDIRECT_BLOCKS < N ∧
    ∃ i, i < outerCnt N ∧ s = st.disk (id.direct (DIRECT_BLOCKS + 1)) i)

/-- Well-formedness of a block map with `N` allocated data sectors: data
sectors are pairwise distinct, data sectors are not index sectors, and the
index sectors are pairwise distinct. -/
structure MapOk (st : FsState) (id : inode_disk) (N : Nat) : Prop where
  inj : ∀ j k, j < N → k < N → dataSector st id j = dataSector st id k → j = k
  data_not_idx : ∀ k, k < N → ¬ IdxSector st id N (dataSector st id k)
  idx12_ne_13 : DIRECT_BLOCKS < N → INDIRECT_BLOCKS < N →
    id.direct DIRECT_BLOCKS ≠ id.direct (DIRECT_BLOCKS + 1)
  idx12_ne_slot : DIRECT_BLOCKS < N → ∀ i, i < outerCnt N →
    id.direct DIRECT_BLOCKS ≠ st.disk (id.direct (DIRECT_BLOCKS + 1)) i
  idx13_ne_slot : ∀ i, i < outerCnt N →
    id.direct (DIRECT_BLOCKS + 1) ≠ st.disk (id.direct (DIRECT_BLOCKS + 1)) i
  slot_inj : ∀ i j, i < outerCnt N → j < outerCnt N →
    st.disk (id.direct (DIRECT_BLOCKS + 1)) i =
      st.disk (id.direct (DIRECT_BLOCKS + 1)) j → i = j

/-! ## Arithmetic helpers -/

theorem div_lt_outerCnt {k N : Nat} (h140 : INDIRECT_BLOCKS ≤ k) (hk : k < N) :
    (k - INDIRECT_BLOCKS) / INDIRECT_BLOCK_SIZE < outerCnt N := by
  simp only [outerCnt, INDIRECT_BLOCKS, INDIRECT_BLOCK_SIZE] at *
  omega

theorem div_lt_bytes_to_sectors {pos L : Nat} (h : pos < L) :
    pos / BLOCK_SECTOR_SIZE < bytes_to_sectors L := by
  simp only [bytes_to_sectors, BLOCK_SECTOR_SIZE] at *
  omega

/-! ## List helpers -/

theorem getD_drop (l : List Nat) (n m d : Nat) :
    (l.drop n).getD m d = l.getD (n + m) d := by
  simp [List.getD, List.getElem?_drop]

theorem getD_mem_take {l : List Nat} {p C : Nat} (d : Nat) (hp : p < C)
    (hl : p < l.length) : l.getD p d ∈ l.take C := by
  rw [List.getD_eq_getElem l d hl]
  have hp2 : p < (l.take C).length := by simp; omega
  have he : (l.take C)[p] = l[p] := @List.getElem_take _ l C p hp2
  rw [← he]
  exact List.getElem_mem hp2

/-! ## The resolver through the abstract view -/

theorem byte_to_sector_eq_dataSector (st : FsState) (ino : inode) (pos : Nat)
    (h : pos < ino.data.length)
    (hcap : pos / BLOCK_SECTOR_SIZE < DOUBLY_BLOCKS) :
    byte_to_sector st ino pos = dataSector st ino.data (pos / BLOCK_SECTOR_SIZE) := by
  unfold byte_to_sector dataSector cache_read
  rw [if_pos h]
  by_cases h1 : pos / BLOCK_SECTOR_SIZE < DIRECT_BLOCKS
  · rw [if_pos h1, if_pos h1]
  · rw [if_neg h1, if_neg h1]
    by_cases h2 : pos / BLOCK_SECTOR_SIZE < INDIRECT_BLOCKS
    · rw [if_pos h2, if_pos h2]
    · rw [if_neg h2, if_neg h2, if_pos hcap]

/-! ## Stability of the abstract view under data-sector writes -/

theorem dataSector_cache_write_stable (st : FsState) (id : inode_disk)
    (N s : Nat) (c : Nat → Nat) (hs : ¬ IdxSector st id N s) (k : Nat)
    (hk : k < N) :
    dataSector (cache_write st s c) id k = dataSector st id k := by
  unfold dataSector
  by_cases h1 : k < DIRECT_BLOCKS
  · rw [if_pos h1, if_pos h1]
  · rw [if_neg h1, if_neg h1]
    by_cases h2 : k < INDIRECT_BLOCKS
    · rw [if_pos h2, if_pos h2]
      have h12 : DIRECT_BLOCKS < N := by omega
      have hne : id.direct DIRECT_BLOCKS ≠ s := by
        intro he
        exact hs (Or.inl ⟨h12, he.symm⟩)
      simp only [cache_write_disk]
      rw [Function.update_noteq hne]
    · rw [if_neg h2, if_neg h2]
      have h140 : INDIRECT_BLOCKS < N := by omega
      have hne13 : id.direct (DIRECT_BLOCKS + 1) ≠ s := by
        intro he
        exact hs (Or.inr (Or.inl ⟨h140, he.symm⟩))
      have hslot : (k - INDIRECT_BLOCKS) / INDIRECT_BLOCK_SIZE < outerCnt N :=
        div_lt_outerCnt (by omega) hk
      have hneslot :
          st.disk (id.direct (DIRECT_BLOCKS + 1))
            ((k - INDIRECT_BLOCKS) / INDIRECT_BLOCK_SIZE) ≠ s := by
        intro he
        exact hs (Or.inr (Or.inr ⟨h140, _, hslot, he.symm⟩))
      simp only [cache_write_disk]
      rw [Function.update_noteq hne13, Function.update_noteq hneslot]

theorem IdxSector_cache_write_stable (st : FsState) (id : inode_disk)
    (N s : Nat) (c : Nat → Nat) (hs : ¬ IdxSector st id N s) (x : Nat) :
    IdxSector (cache_write st s c) id N x ↔ IdxSector st id N x := by
  unfold IdxSector
  by_cases h140 : INDIRECT_BLOCKS < N
  · have hne13 : id.direct (DIRECT_BLOCKS + 1) ≠ s := by
      intro he
      exact hs (Or.inr (Or.inl ⟨h140, he.symm⟩))
    simp only [cache_write_disk, Function.update_noteq hne13]
  · simp only [h140, false_and, false_or, or_self_right]

theorem MapOk_cache_write_stable (st : FsState) (id : inode_disk) (N s : Nat)
    (c : Nat → Nat) (hm : MapOk st id N) (hs : ¬ IdxSector st id N s) :
    MapOk (cache_write st s c) id N := by
  have hds := dataSector_cache_write_stable st id N s c hs
  have hix := IdxSector_cache_write_stable st id N s c hs
  have h140 : INDIRECT_BLOCKS < N → id.direct (DIRECT_BLOCKS + 1) ≠ s := by
    intro h he
    exact hs (Or.inr (Or.inl ⟨h, he.symm⟩))
  constructor
  · intro j k hj hk he
    exact hm.inj j k hj hk (by rw [← hds j hj, ← hds k hk, he])
  · intro k hk hi
    rw [hds k hk] at hi
    exact hm.data_not_idx k hk ((hix _).1 hi)
  · exact hm.idx12_ne_13
  · intro h12 i hi
    have hne13 : id.direct (DIRECT_BLOCKS + 1) ≠ s := by
      apply h140
      simp only [outerCnt, INDIRECT_BLOCKS, INDIRECT_BLOCK_SIZE] at hi ⊢
      omega
    simp only [cache_write_disk, Function.update_noteq hne13]
    exact hm.idx12_ne_slot h12 i hi
  · intro i hi
    have hne13 : id.direct (DIRECT_BLOCKS + 1) ≠ s := by
      apply h140
      simp only [outerCnt, INDIRECT_BLOCKS, INDIRECT_BLOCK_SIZE] at hi ⊢
      omega
    simp only [cache_write_disk, Function.update_noteq hne13]
    exact hm.idx13_ne_slot i hi
  · intro i j hi hj
    have hne13 : id.direct (DIRECT_BLOCKS + 1) ≠ s := by
      apply h140
      simp only [outerCnt, INDIRECT_BLOCKS, INDIRECT_BLOCK_SIZE] at hi ⊢
      omega
    simp only [cache_write_disk, Function.update_noteq hne13]
    exact hm.slot_inj i j hi hj

theorem mem_take_mono {l : List Nat} {x : Nat} {m n : Nat} (h : m ≤ n)
    (hm : x ∈ l.take m) : x ∈ l.take n := by
  have he : l.take m = (l.take n).take m := by
    rw [List.take_take, Nat.min_eq_left h]
  rw [he] at hm
  exact List.mem_of_mem_take hm

theorem mem_take_drop {l : List Nat} {x : Nat} {m n : Nat}
    (h : x ∈ (l.drop m).take n) : x ∈ l.take (m + n) := by
  rw [List.take_drop] at h
  exact List.mem_of_mem_drop h

theorem nodup_getD_notmem_segment {l : List Nat} (hnd : l.Nodup)
    {i m n : Nat} (d : Nat) (hi : i < l.length) (him : i < m) :
    l.getD i d ∉ (l.drop m).take n := by
  intro hmem
  have hmem2 := List.mem_of_mem_take hmem
  obtain ⟨j, hj, hje⟩ := List.getElem_of_mem hmem2
  rw [List.getElem_drop] at hje
  rw [List.getD_eq_getElem l d hi] at hje
  have hlen : m + j < l.length := by
    have := List.length_drop m l
    omega
  have := (@List.Nodup.getElem_inj_iff _ _ hnd _ hlen _ hi).1 hje
  omega

theorem getD_mem {l : List Nat} {p : Nat} (d : Nat) (hl : p < l.length) :
    l.getD p d ∈ l := by
  rw [List.getD_eq_getElem l d hl]
  exact List.getElem_mem hl

/-! ## Post-condition of the doubly-indirect outer loop of `inode_grow` -/

/-- What one full run of the doubly-indirect outer loop guarantees, entered
with `blocks = 140 + 128·idx1 + idx2` data sectors allocated and `ns` more to
allocate.  The pop positions are closed-form: the data sector for absolute
block index `k` comes from free-list position
`(k - blocks) + (outerCnt (k+1) - outerCnt blocks)`, and the index sector for
a freshly started outer slot `i` from position
`(140 + 128·i - blocks) + (i - outerCnt blocks)`. -/
structure DoublyPost (st : FsState) (buf1 : Nat → Nat)
    (blocks ns idx1 idx2 : Nat) (r : OuterRes) : Prop where
  blocks_eq : r.blocks = blocks + ns
  ns_eq : r.ns = 0
  freeList_eq : r.st.freeList =
    st.freeList.drop (ns + (outerCnt (blocks + ns) - outerCnt blocks))
  released_eq : r.st.released = st.released
  buf1_lo : ∀ i, i < idx1 → r.buf1 i = buf1 i
  buf1_cont : idx2 ≠ 0 → r.buf1 idx1 = buf1 idx1
  disk_frame : ∀ s,
    s ∉ st.freeList.take (ns + (outerCnt (blocks + ns) - outerCnt blocks)) →
    (idx2 ≠ 0 → s ≠ buf1 idx1) → r.st.disk s = st.disk s
  cont_bytes : idx2 ≠ 0 → ∀ j, j < idx2 →
    r.st.disk (buf1 idx1) j = st.disk (buf1 idx1) j
  slots_fresh : ∀ i, idx1 ≤ i → i < outerCnt (blocks + ns) →
    (i = idx1 → idx2 = 0) →
    r.buf1 i = st.freeList.getD
      (INDIRECT_BLOCKS + INDIRECT_BLOCK_SIZE * i - blocks + (i - outerCnt blocks))
      INVALID_SECTOR
  data_new : ∀ k, blocks ≤ k → k < blocks + ns →
    r.st.disk (r.buf1 ((k - INDIRECT_BLOCKS) / INDIRECT_BLOCK_SIZE))
        ((k - INDIRECT_BLOCKS) % INDIRECT_BLOCK_SIZE) =
      st.freeList.getD (k - blocks + (outerCnt (k + 1) - outerCnt blocks))
        INVALID_SECTOR
  data_zero : ∀ k, blocks ≤ k → k < blocks + ns → ∀ b,
    r.st.disk
      (st.freeList.getD (k - blocks + (outerCnt (k + 1) - outerCnt blocks))
        INVALID_SECTOR) b = 0

/-- One-step reduction of the outer loop when entering at a slot boundary
(`idx2 = 0`): the slot's index sector is allocated first. -/
theorem growDoublyOuterF_succ_zero (f : Nat) (st : FsState)
    (buf1 buf2 : Nat → Nat) (blocks ns idx1 : Nat)
    (hidx1 : idx1 < INDIRECT_BLOCK_SIZE) (a : Nat) (rest : List Nat)
    (hfl : st.freeList = a :: rest) :
    growDoublyOuterF (f + 1) st buf1 buf2 blocks ns idx1 0 =
      (if (allocZeroLoop { st with freeList := rest } buf2 0 INDIRECT_BLOCK_SIZE ns).ns = 0 then
        (⟨cache_write (allocZeroLoop { st with freeList := rest } buf2 0 INDIRECT_BLOCK_SIZE ns).st a
            (allocZeroLoop { st with freeList := rest } buf2 0 INDIRECT_BLOCK_SIZE ns).slots,
          Function.update buf1 idx1 a,
          blocks + ((allocZeroLoop { st with freeList := rest } buf2 0 INDIRECT_BLOCK_SIZE ns).pos - 0),
          0⟩ : OuterRes)
       else
        growDoublyOuterF f
          (cache_write (allocZeroLoop { st with freeList := rest } buf2 0 INDIRECT_BLOCK_SIZE ns).st a
            (allocZeroLoop { st with freeList := rest } buf2 0 INDIRECT_BLOCK_SIZE ns).slots)
          (Function.update buf1 idx1 a)
          (allocZeroLoop { st with freeList := rest } buf2 0 INDIRECT_BLOCK_SIZE ns).slots
          (blocks + ((allocZeroLoop { st with freeList := rest } buf2 0 INDIRECT_BLOCK_SIZE ns).pos - 0))
          (allocZeroLoop { st with freeList := rest } buf2 0 INDIRECT_BLOCK_SIZE ns).ns
          (idx1 + 1) 0) := by
  simp only [growDoublyOuterF, if_pos hidx1, free_map_allocate, hfl,
    Function.update_same, if_true, eq_self_iff_true]

/-- One-step reduction of the outer loop when continuing a partially filled
slot (`idx2 ≠ 0`): the slot's table is loaded from disk. -/
theorem growDoublyOuterF_succ_pos (f : Nat) (st : FsState)
    (buf1 buf2 : Nat → Nat) (blocks ns idx1 idx2 : Nat)
    (hidx1 : idx1 < INDIRECT_BLOCK_SIZE) (hidx2 : idx2 ≠ 0) :
    growDoublyOuterF (f + 1) st buf1 buf2 blocks ns idx1 idx2 =
      (if (allocZeroLoop st (st.disk (buf1 idx1)) idx2 INDIRECT_BLOCK_SIZE ns).ns = 0 then
        (⟨cache_write (allocZeroLoop st (st.disk (buf1 idx1)) idx2 INDIRECT_BLOCK_SIZE ns).st
            (buf1 idx1)
            (allocZeroLoop st (st.disk (buf1 idx1)) idx2 INDIRECT_BLOCK_SIZE ns).slots,
          buf1,
          blocks + ((allocZeroLoop st (st.disk (buf1 idx1)) idx2 INDIRECT_BLOCK_SIZE ns).pos - idx2),
          0⟩ : OuterRes)
       else
        growDoublyOuterF f
          (cache_write (allocZeroLoop st (st.disk (buf1 idx1)) idx2 INDIRECT_BLOCK_SIZE ns).st
            (buf1 idx1)
            (allocZeroLoop st (st.disk (buf1 idx1)) idx2 INDIRECT_BLOCK_SIZE ns).slots)
          buf1
          (allocZeroLoop st (st.disk (buf1 idx1)) idx2 INDIRECT_BLOCK_SIZE ns).slots
          (blocks + ((allocZeroLoop st (st.disk (buf1 idx1)) idx2 INDIRECT_BLOCK_SIZE ns).pos - idx2))
          (allocZeroLoop st (st.disk (buf1 idx1)) idx2 INDIRECT_BLOCK_SIZE ns).ns
          (idx1 + 1) 0) := by
  simp only [growDoublyOuterF, if_pos hidx1, if_neg hidx2, cache_read]

/-- Inductive characterization of the doubly-indirect outer loop. -/
theorem growDoublyOuterF_spec :
    ∀ (fuel : Nat) (st : FsState) (buf1 buf2 : Nat → Nat)
      (blocks ns idx1 idx2 : Nat),
    INDIRECT_BLOCK_SIZE - idx1 ≤ fuel →
    blocks = INDIRECT_BLOCKS + INDIRECT_BLOCK_SIZE * idx1 + idx2 →
    idx2 < INDIRECT_BLOCK_SIZE →
    1 ≤ ns →
    blocks + ns ≤ DOUBLY_BLOCKS →
    ns + (outerCnt (blocks + ns) - outerCnt blocks) ≤ st.freeList.length →
    st.freeList.Nodup →
    (idx2 ≠ 0 → buf1 idx1 ∉
      st.freeList.take (ns + (outerCnt (blocks + ns) - outerCnt blocks))) →
    DoublyPost st buf1 blocks ns idx1 idx2
      (growDoublyOuterF fuel st buf1 buf2 blocks ns idx1 idx2) := by
  intro fuel
  induction fuel with
  | zero =>
    intro st buf1 buf2 blocks ns idx1 idx2 hfuel hb hidx2 hns hcap hlen hnodup hsf
    exfalso
    simp only [INDIRECT_BLOCK_SIZE, INDIRECT_BLOCKS, DOUBLY_BLOCKS] at hfuel hb hidx2 hcap
    omega
  | succ f ih =>
    intro st buf1 buf2 blocks ns idx1 idx2 hfuel hb hidx2 hns hcap hlen hnodup hsf
    have eIB : INDIRECT_BLOCKS = 140 := rfl
    have eBS : INDIRECT_BLOCK_SIZE = 128 := rfl
    have eDB : DOUBLY_BLOCKS = 16524 := rfl
    rw [eIB, eBS] at hb
    rw [eBS] at hidx2
    rw [eDB] at hcap
    have hidx1 : idx1 < INDIRECT_BLOCK_SIZE := by rw [eBS]; omega
    by_cases hcase : idx2 = 0
    -- ===== Case A: entering at a slot boundary =====
    · subst hcase
      have hA1 : blocks = 140 + 128 * idx1 := by omega
      have hocb : outerCnt blocks = idx1 := by
        simp only [outerCnt, INDIRECT_BLOCKS, INDIRECT_BLOCK_SIZE]
        omega
      have hoc1 : idx1 + 1 ≤ outerCnt (blocks + ns) := by
        simp only [outerCnt, INDIRECT_BLOCKS, INDIRECT_BLOCK_SIZE]
        omega
      have hne : st.freeList ≠ [] := by
        intro h
        rw [h] at hlen
        simp at hlen
        omega
      obtain ⟨a, rest, hfl⟩ := List.exists_cons_of_ne_nil hne
      have hlenr : st.freeList.length = rest.length + 1 := by rw [hfl]; rfl
      have hanr : a ∉ rest := by
        rw [hfl] at hnodup
        exact (List.nodup_cons.1 hnodup).1
      have hndr : rest.Nodup := by
        rw [hfl] at hnodup
        exact (List.nodup_cons.1 hnodup).2
      have hlen0 : min ns (INDIRECT_BLOCK_SIZE - 0) ≤
          (FsState.mk st.disk rest st.released).freeList.length := by
        simp only [eBS]
        simp only [hocb] at hlen
        omega
      have hst' : ({ st with freeList := rest } : FsState) =
          FsState.mk st.disk rest st.released := rfl
      obtain ⟨s1, s2, s3, s4, s5, s6, s7, s8⟩ :=
        allocZeroLoop_spec (FsState.mk st.disk rest st.released) buf2 0
          INDIRECT_BLOCK_SIZE ns hns hlen0
      rw [growDoublyOuterF_succ_zero f st buf1 buf2 blocks ns idx1 hidx1 a rest hfl,
        hst']
      generalize hr0 : allocZeroLoop (FsState.mk st.disk rest st.released) buf2 0
          INDIRECT_BLOCK_SIZE ns = r0 at s1 s2 s3 s4 s5 s6 s7 s8 ⊢
      by_cases hstop : r0.ns = 0
      -- ----- Subcase A1: the whole remainder fits in this slot -----
      · clear ih
        have hns128 : ns ≤ 128 := by
          rw [s2] at hstop
          simp only [eBS] at hstop ⊢
          omega
        have ht : min ns (INDIRECT_BLOCK_SIZE - 0) = ns := by
          simp only [eBS]
          omega
        rw [ht] at s1 s2 s3 s5 s6 s7 s8
        have hCeq : ns + (outerCnt (blocks + ns) - outerCnt blocks) = ns + 1 := by
          simp only [outerCnt, INDIRECT_BLOCKS, INDIRECT_BLOCK_SIZE]
          omega
        rw [if_pos hstop]
        have hocS : outerCnt (blocks + ns) = idx1 + 1 := by
          simp only [outerCnt, INDIRECT_BLOCKS, INDIRECT_BLOCK_SIZE]
          omega
        refine ⟨?_, rfl, ?_, ?_, ?_, ?_, ?_, ?_, ?_, ?_, ?_⟩
        · simp only [OuterRes.blocks]
          rw [s1]
          omega
        · simp only [OuterRes.st, cache_write_freeList, s3, hCeq, hfl,
            List.drop_succ_cons]
        · simp only [OuterRes.st, cache_write_released, s4]
        · intro i hi
          simp only [OuterRes.buf1]
          exact Function.update_noteq (by omega) _ _
        · intro hcontra
          exact absurd rfl hcontra
        · intro s hs hs2
          rw [hCeq, hfl] at hs
          have hsplit : ns + 1 = ns + 1 := rfl
          rw [show ns + 1 = Nat.succ ns from rfl, List.take_succ_cons] at hs
          simp only [List.mem_cons, not_or] at hs
          simp only [OuterRes.st, cache_write_disk]
          rw [Function.update_noteq hs.1]
          exact s7 s hs.2
        · intro hcontra
          exact absurd rfl hcontra
        · intro i hi1 hi2 _
          have hieq : i = idx1 := by
            rw [hocS] at hi2
            omega
          subst hieq
          simp only [OuterRes.buf1, Function.update_same]
          have hidxeq : INDIRECT_BLOCKS + INDIRECT_BLOCK_SIZE * i - blocks +
              (i - outerCnt blocks) = 0 := by
            simp only [eIB, eBS]
            rw [hocb]
            omega
          rw [hidxeq, hfl]
          rfl
        · intro k hk1 hk2
          have hslot : (k - INDIRECT_BLOCKS) / INDIRECT_BLOCK_SIZE = idx1 := by
            simp only [eIB, eBS]
            omega
          have hinner : (k - INDIRECT_BLOCKS) % INDIRECT_BLOCK_SIZE = k - blocks := by
            simp only [eIB, eBS]
            omega
          have hidxeq : k - blocks + (outerCnt (k + 1) - outerCnt blocks) =
              k - blocks + 1 := by
            simp only [outerCnt, INDIRECT_BLOCKS, INDIRECT_BLOCK_SIZE]
            omega
          rw [hslot, hinner, hidxeq]
          simp only [OuterRes.buf1, OuterRes.st, Function.update_same,
            cache_write_disk]
          rw [s6 (k - blocks) (by omega) (by omega)]
          rw [hfl]
          simp only [Nat.sub_zero, List.getD_cons_succ]
        · intro k hk1 hk2 b
          have hidxeq : k - blocks + (outerCnt (k + 1) - outerCnt blocks) =
              k - blocks + 1 := by
            simp only [outerCnt, INDIRECT_BLOCKS, INDIRECT_BLOCK_SIZE]
            omega
          rw [hidxeq, hfl, List.getD_cons_succ]
          have hkr : k - blocks < rest.length := by
            simp only [hocb] at hlen
            rw [hlenr] at hlen
            omega
          have hv : rest.getD (k - blocks) INVALID_SECTOR ∈ rest.take ns :=
            getD_mem_take INVALID_SECTOR (by omega) hkr
          have hva : rest.getD (k - blocks) INVALID_SECTOR ≠ a := by
            intro he
            exact hanr (he ▸ getD_mem INVALID_SECTOR hkr)
          simp only [OuterRes.st, cache_write_disk]
          rw [Function.update_noteq hva]
          exact s8 _ hv b
      -- ----- Subcase A2: this slot fills completely; recurse -----
      · have hns128 : 128 < ns := by
          rw [s2] at hstop
          simp only [eBS] at hstop ⊢
          omega
        have ht : min ns (INDIRECT_BLOCK_SIZE - 0) = 128 := by
          simp only [eBS]
          omega
        rw [ht] at s1 s2 s3 s5 s6 s7 s8
        rw [if_neg hstop]
        have hrpos : r0.pos = 128 := by rw [s1]
        have hrns : r0.ns = ns - 128 := s2
        simp only [hrpos, hrns, Nat.sub_zero]
        have hlenu : ns + ((blocks + ns - 140 + 127) / 128 -
            (blocks - 140 + 127) / 128) ≤ rest.length + 1 := by
          have h2 := hlen
          rw [hfl] at h2
          simp only [outerCnt, INDIRECT_BLOCKS, INDIRECT_BLOCK_SIZE,
            List.length_cons] at h2
          omega
        have hocb1 : outerCnt (blocks + 128) = idx1 + 1 := by
          simp only [outerCnt, INDIRECT_BLOCKS, INDIRECT_BLOCK_SIZE]
          omega
        have hocu : (blocks - 140 + 127) / 128 = idx1 := by omega
        have hrlen : 128 < rest.length := by omega
        have heq : blocks + 128 + (ns - 128) = blocks + ns := by omega
        have hpost := ih (cache_write r0.st a r0.slots)
          (Function.update buf1 idx1 a) r0.slots
          (blocks + 128) (ns - 128) (idx1 + 1) 0
          (by rw [eBS]; rw [eBS] at hfuel; omega)
          (by rw [eIB, eBS]; omega)
          (by rw [eBS]; omega)
          (by omega)
          (by rw [eDB]; omega)
          (by
            simp only [cache_write_freeList, s3, List.length_drop]
            simp only [outerCnt, INDIRECT_BLOCKS, INDIRECT_BLOCK_SIZE]
            omega)
          (by
            simp only [cache_write_freeList, s3]
            exact List.Nodup.sublist (List.drop_sublist 128 rest) hndr)
          (fun h => absurd rfl h)
        clear ih
        refine ⟨?_, hpost.ns_eq, ?_, ?_, ?_, ?_, ?_, ?_, ?_, ?_, ?_⟩
        · rw [hpost.blocks_eq]
          omega
        · have h3 := hpost.freeList_eq
          simp only [cache_write_freeList, s3, List.drop_drop] at h3
          rw [h3, hfl]
          have hidx : ns + (outerCnt (blocks + ns) - outerCnt blocks) =
              (128 + (ns - 128 + (outerCnt (blocks + 128 + (ns - 128)) -
                outerCnt (blocks + 128)))) + 1 := by
            simp only [outerCnt, INDIRECT_BLOCKS, INDIRECT_BLOCK_SIZE]
            omega
          rw [hidx, List.drop_succ_cons]
        · have h4 := hpost.released_eq
          simp only [cache_write_released, s4] at h4
          exact h4
        · intro i hi
          rw [hpost.buf1_lo i (by omega)]
          exact Function.update_noteq (by omega) _ _
        · intro hcontra
          exact absurd rfl hcontra
        · intro s hs _
          rw [hfl] at hs
          have hCs : ns + (outerCnt (blocks + ns) - outerCnt blocks) =
              (128 + (ns - 128 + (outerCnt (blocks + 128 + (ns - 128)) -
                outerCnt (blocks + 128)))) + 1 := by
            simp only [outerCnt, INDIRECT_BLOCKS, INDIRECT_BLOCK_SIZE]
            omega
          rw [hCs, List.take_succ_cons] at hs
          simp only [List.mem_cons, not_or] at hs
          have hframe := hpost.disk_frame s
            (by
              simp only [cache_write_freeList, s3]
              intro hmem
              exact hs.2 (mem_take_drop hmem))
            (fun h => absurd rfl h)
          rw [hframe]
          simp only [cache_write_disk]
          rw [Function.update_noteq hs.1]
          exact s7 s (fun hmem => hs.2 (mem_take_mono (by omega) hmem))
        · intro hcontra
          exact absurd rfl hcontra
        · intro i hi1 hi2 _
          by_cases hieq : i = idx1
          · subst hieq
            rw [hpost.buf1_lo i (by omega), Function.update_same]
            have hidxeq : INDIRECT_BLOCKS + INDIRECT_BLOCK_SIZE * i - blocks +
                (i - outerCnt blocks) = 0 := by
              simp only [eIB, eBS]
              rw [hocb]
              omega
            rw [hidxeq, hfl]
            rfl
          · have hfr := hpost.slots_fresh i (by omega)
              (by rw [heq]; exact hi2) (fun h => rfl)
            rw [hfr]
            simp only [cache_write_freeList, s3, getD_drop]
            have hq : INDIRECT_BLOCKS + INDIRECT_BLOCK_SIZE * i - blocks +
                (i - outerCnt blocks) =
                (128 + (INDIRECT_BLOCKS + INDIRECT_BLOCK_SIZE * i -
                  (blocks + 128) + (i - outerCnt (blocks + 128)))) + 1 := by
              simp only [eIB, eBS]
              rw [hocb, hocb1]
              omega
            rw [hq, hfl, List.getD_cons_succ]
        · intro k hk1 hk2
          by_cases hkr : k < blocks + 128
          · have hslot : (k - INDIRECT_BLOCKS) / INDIRECT_BLOCK_SIZE = idx1 := by
              simp only [eIB, eBS]
              omega
            have hinner : (k - INDIRECT_BLOCKS) % INDIRECT_BLOCK_SIZE =
                k - blocks := by
              simp only [eIB, eBS]
              omega
            have hidxeq : k - blocks + (outerCnt (k + 1) - outerCnt blocks) =
                k - blocks + 1 := by
              simp only [outerCnt, INDIRECT_BLOCKS, INDIRECT_BLOCK_SIZE]
              omega
            rw [hslot, hinner, hidxeq]
            rw [hpost.buf1_lo idx1 (by omega), Function.update_same]
            have hframe := hpost.disk_frame a
              (by
                simp only [cache_write_freeList, s3]
                intro hmem
                exact hanr (List.mem_of_mem_drop (List.mem_of_mem_take hmem)))
              (fun h => absurd rfl h)
            rw [hframe]
            simp only [cache_write_disk]
            rw [Function.update_same]
            rw [s6 (k - blocks) (by omega) (by omega)]
            rw [hfl]
            simp only [Nat.sub_zero, List.getD_cons_succ]
          · have hm := hpost.data_new k (by omega) (by omega)
            rw [hm]
            simp only [cache_write_freeList, s3, getD_drop]
            have hq : k - blocks + (outerCnt (k + 1) - outerCnt blocks) =
                (128 + (k - (blocks + 128) + (outerCnt (k + 1) -
                  outerCnt (blocks + 128)))) + 1 := by
              simp only [outerCnt, INDIRECT_BLOCKS, INDIRECT_BLOCK_SIZE]
              omega
            rw [hq, hfl, List.getD_cons_succ]
        · intro k hk1 hk2 b
          by_cases hkr : k < blocks + 128
          · have hidxeq : k - blocks + (outerCnt (k + 1) - outerCnt blocks) =
                k - blocks + 1 := by
              simp only [outerCnt, INDIRECT_BLOCKS, INDIRECT_BLOCK_SIZE]
              omega
            rw [hidxeq, hfl, List.getD_cons_succ]
            have hvlen : k - blocks < rest.length := by omega
            have hv : rest.getD (k - blocks) INVALID_SECTOR ∈ rest.take 128 :=
              getD_mem_take INVALID_SECTOR (by omega) hvlen
            have hva : rest.getD (k - blocks) INVALID_SECTOR ≠ a := by
              intro he
              exact hanr (he ▸ getD_mem INVALID_SECTOR hvlen)
            have hframe := hpost.disk_frame
              (rest.getD (k - blocks) INVALID_SECTOR)
              (by
                simp only [cache_write_freeList, s3]
                exact nodup_getD_notmem_segment hndr INVALID_SECTOR hvlen
                  (by omega))
              (fun h => absurd rfl h)
            rw [hframe]
            simp only [cache_write_disk]
            rw [Function.update_noteq hva]
            exact s8 _ hv b
          · have hm := hpost.data_zero k (by omega) (by omega) b
            simp only [cache_write_freeList, s3, getD_drop] at hm
            have hq : k - blocks + (outerCnt (k + 1) - outerCnt blocks) =
                (128 + (k - (blocks + 128) + (outerCnt (k + 1) -
                  outerCnt (blocks + 128)))) + 1 := by
              simp only [outerCnt, INDIRECT_BLOCKS, INDIRECT_BLOCK_SIZE]
              omega
            rw [hq, hfl, List.getD_cons_succ]
            exact hm
    -- ===== Case B: continuing a partially filled slot =====
    · have hidx2p : 0 < idx2 := Nat.pos_of_ne_zero hcase
      have hocb : outerCnt blocks = idx1 + 1 := by
        simp only [outerCnt, INDIRECT_BLOCKS, INDIRECT_BLOCK_SIZE]
        omega
      have hlenu : ns + ((blocks + ns - 140 + 127) / 128 -
          (blocks - 140 + 127) / 128) ≤ st.freeList.length := by
        have h2 := hlen
        simp only [outerCnt, INDIRECT_BLOCKS, INDIRECT_BLOCK_SIZE] at h2
        exact h2
      have hsfb := hsf hcase
      have hlen0 : min ns (INDIRECT_BLOCK_SIZE - idx2) ≤ st.freeList.length := by
        rw [eBS]
        omega
      obtain ⟨s1, s2, s3, s4, s5, s6, s7, s8⟩ :=
        allocZeroLoop_spec st (st.disk (buf1 idx1)) idx2 INDIRECT_BLOCK_SIZE ns
          hns hlen0
      rw [growDoublyOuterF_succ_pos f st buf1 buf2 blocks ns idx1 idx2 hidx1 hcase]
      generalize hr0 : allocZeroLoop st (st.disk (buf1 idx1)) idx2
          INDIRECT_BLOCK_SIZE ns = r0 at s1 s2 s3 s4 s5 s6 s7 s8 ⊢
      by_cases hstop : r0.ns = 0
      -- ----- Subcase B1: the whole remainder fits in this slot -----
      · clear ih
        have hns128 : ns ≤ 128 - idx2 := by
          rw [s2] at hstop
          rw [eBS] at hstop
          omega
        have ht : min ns (INDIRECT_BLOCK_SIZE - idx2) = ns := by
          rw [eBS]
          omega
        rw [ht] at s1 s2 s3 s5 s6 s7 s8
        have hCeq : ns + (outerCnt (blocks + ns) - outerCnt blocks) = ns := by
          simp only [outerCnt, INDIRECT_BLOCKS, INDIRECT_BLOCK_SIZE]
          omega
        rw [if_pos hstop]
        refine ⟨?_, rfl, ?_, ?_, ?_, ?_, ?_, ?_, ?_, ?_, ?_⟩
        · simp only [OuterRes.blocks]
          rw [s1]
          omega
        · simp only [OuterRes.st, cache_write_freeList, s3, hCeq]
        · simp only [OuterRes.st, cache_write_released, s4]
        · intro i _
          rfl
        · intro _
          rfl
        · intro s hs hs2
          have hsb := hs2 hcase
          rw [hCeq] at hs
          simp only [OuterRes.st, cache_write_disk]
          rw [Function.update_noteq hsb]
          exact s7 s hs
        · intro _ j hj
          simp only [OuterRes.st, cache_write_disk]
          rw [Function.update_same]
          exact s5 j (Or.inl hj)
        · intro i hi1 hi2 hcontra
          exfalso
          have hocS : outerCnt (blocks + ns) = idx1 + 1 := by
            simp only [outerCnt, INDIRECT_BLOCKS, INDIRECT_BLOCK_SIZE]
            omega
          rw [hocS] at hi2
          exact hcase (hcontra (by omega))
        · intro k hk1 hk2
          have hslot : (k - INDIRECT_BLOCKS) / INDIRECT_BLOCK_SIZE = idx1 := by
            simp only [eIB, eBS]
            omega
          have hinner : (k - INDIRECT_BLOCKS) % INDIRECT_BLOCK_SIZE =
              idx2 + (k - blocks) := by
            simp only [eIB, eBS]
            omega
          have hidxeq : k - blocks + (outerCnt (k + 1) - outerCnt blocks) =
              k - blocks := by
            simp only [outerCnt, INDIRECT_BLOCKS, INDIRECT_BLOCK_SIZE]
            omega
          rw [hslot, hinner, hidxeq]
          simp only [OuterRes.buf1, OuterRes.st, cache_write_disk]
          rw [Function.update_same]
          rw [s6 (idx2 + (k - blocks)) (by omega) (by omega)]
          rw [show idx2 + (k - blocks) - idx2 = k - blocks from by omega]
        · intro k hk1 hk2 b
          have hidxeq : k - blocks + (outerCnt (k + 1) - outerCnt blocks) =
              k - blocks := by
            simp only [outerCnt, INDIRECT_BLOCKS, INDIRECT_BLOCK_SIZE]
            omega
          rw [hidxeq]
          have hvlen : k - blocks < st.freeList.length := by omega
          have hv : st.freeList.getD (k - blocks) INVALID_SECTOR ∈
              st.freeList.take ns :=
            getD_mem_take INVALID_SECTOR (by omega) hvlen
          have hvb : st.freeList.getD (k - blocks) INVALID_SECTOR ≠ buf1 idx1 := by
            intro he
            rw [hCeq] at hsfb
            exact hsfb (he ▸ hv)
          simp only [OuterRes.st, cache_write_disk]
          rw [Function.update_noteq hvb]
          exact s8 _ hv b
      -- ----- Subcase B2: this slot fills completely; recurse -----
      · have hns128 : 128 - idx2 < ns := by
          rw [s2] at hstop
          rw [eBS] at hstop
          omega
        have ht : min ns (INDIRECT_BLOCK_SIZE - idx2) = 128 - idx2 := by
          rw [eBS]
          omega
        rw [ht] at s1 s2 s3 s5 s6 s7 s8
        rw [if_neg hstop]
        have hrpos : r0.pos = 128 := by
          rw [s1]
          omega
        have hrns : r0.ns = ns - (128 - idx2) := s2
        simp only [hrpos, hrns]
        have hocb1 : outerCnt (blocks + (128 - idx2)) = idx1 + 1 := by
          simp only [outerCnt, INDIRECT_BLOCKS, INDIRECT_BLOCK_SIZE]
          omega
        have hpost := ih (cache_write r0.st (buf1 idx1) r0.slots)
          buf1 r0.slots
          (blocks + (128 - idx2)) (ns - (128 - idx2)) (idx1 + 1) 0
          (by rw [eBS]; rw [eBS] at hfuel; omega)
          (by rw [eIB, eBS]; omega)
          (by rw [eBS]; omega)
          (by omega)
          (by rw [eDB]; omega)
          (by
            simp only [cache_write_freeList, s3, List.length_drop]
            simp only [outerCnt, INDIRECT_BLOCKS, INDIRECT_BLOCK_SIZE]
            omega)
          (by
            simp only [cache_write_freeList, s3]
            exact List.Nodup.sublist (List.drop_sublist (128 - idx2) st.freeList)
              hnodup)
          (fun h => absurd rfl h)
        clear ih
        refine ⟨?_, hpost.ns_eq, ?_, ?_, ?_, ?_, ?_, ?_, ?_, ?_, ?_⟩
        · rw [hpost.blocks_eq]
          omega
        · have h3 := hpost.freeList_eq
          simp only [cache_write_freeList, s3, List.drop_drop] at h3
          have hidx : ns + (outerCnt (blocks + ns) - outerCnt blocks) =
              (128 - idx2) + (ns - (128 - idx2) +
                (outerCnt (blocks + (128 - idx2) + (ns - (128 - idx2))) -
                  outerCnt (blocks + (128 - idx2)))) := by
            simp only [outerCnt, INDIRECT_BLOCKS, INDIRECT_BLOCK_SIZE]
            omega
          rw [hidx]
          exact h3
        · have h4 := hpost.released_eq
          simp only [cache_write_released, s4] at h4
          exact h4
        · intro i hi
          exact hpost.buf1_lo i (by omega)
        · intro _
          exact hpost.buf1_lo idx1 (by omega)
        · intro s hs hs2
          have hsb := hs2 hcase
          have hframe := hpost.disk_frame s
            (by
              simp only [cache_write_freeList, s3]
              intro hmem
              have := mem_take_drop hmem
              apply hs
              apply mem_take_mono _ this
              simp only [outerCnt, INDIRECT_BLOCKS, INDIRECT_BLOCK_SIZE]
              omega)
            (fun h => absurd rfl h)
          rw [hframe]
          simp only [cache_write_disk]
          rw [Function.update_noteq hsb]
          apply s7
          intro hmem
          apply hs
          apply mem_take_mono _ hmem
          simp only [outerCnt, INDIRECT_BLOCKS, INDIRECT_BLOCK_SIZE]
          omega
        · intro _ j hj
          have hframe := hpost.disk_frame (buf1 idx1)
            (by
              simp only [cache_write_freeList, s3]
              intro hmem
              have := mem_take_drop hmem
              apply hsfb
              apply mem_take_mono _ this
              simp only [outerCnt, INDIRECT_BLOCKS, INDIRECT_BLOCK_SIZE]
              omega)
            (fun h => absurd rfl h)
          rw [hframe]
          simp only [cache_write_disk]
          rw [Function.update_same]
          exact s5 j (Or.inl hj)
        · intro i hi1 hi2 hcontra
          have hi1' : idx1 + 1 ≤ i := by
            by_cases hieq : i = idx1
            · exact absurd (hcontra hieq) hcase
            · omega
          have heq2 : blocks + (128 - idx2) + (ns - (128 - idx2)) =
              blocks + ns := by omega
          have hfr := hpost.slots_fresh i hi1'
            (by rw [heq2]; exact hi2) (fun h => rfl)
          rw [hfr]
          simp only [cache_write_freeList, s3, getD_drop]
          rw [show INDIRECT_BLOCKS + INDIRECT_BLOCK_SIZE * i - blocks +
              (i - outerCnt blocks) =
              128 - idx2 + (INDIRECT_BLOCKS + INDIRECT_BLOCK_SIZE * i -
                (blocks + (128 - idx2)) + (i - outerCnt (blocks + (128 - idx2))))
            from by
              simp only [eIB, eBS]
              rw [hocb, hocb1]
              omega]
        · intro k hk1 hk2
          by_cases hkr : k < blocks + (128 - idx2)
          · have hslot : (k - INDIRECT_BLOCKS) / INDIRECT_BLOCK_SIZE = idx1 := by
              simp only [eIB, eBS]
              omega
            have hinner : (k - INDIRECT_BLOCKS) % INDIRECT_BLOCK_SIZE =
                idx2 + (k - blocks) := by
              simp only [eIB, eBS]
              omega
            have hidxeq : k - blocks + (outerCnt (k + 1) - outerCnt blocks) =
                k - blocks := by
              simp only [outerCnt, INDIRECT_BLOCKS, INDIRECT_BLOCK_SIZE]
              omega
            rw [hslot, hinner, hidxeq]
            rw [hpost.buf1_lo idx1 (by omega)]
            have hframe := hpost.disk_frame (buf1 idx1)
              (by
                simp only [cache_write_freeList, s3]
                intro hmem
                have := mem_take_drop hmem
                apply hsfb
                apply mem_take_mono _ this
                simp only [outerCnt, INDIRECT_BLOCKS, INDIRECT_BLOCK_SIZE]
                omega)
              (fun h => absurd rfl h)
            rw [hframe]
            simp only [cache_write_disk]
            rw [Function.update_same]
            rw [s6 (idx2 + (k - blocks)) (by omega) (by omega)]
            rw [show idx2 + (k - blocks) - idx2 = k - blocks from by omega]
          · have heq2 : blocks + (128 - idx2) + (ns - (128 - idx2)) =
                blocks + ns := by omega
            have hm := hpost.data_new k (by omega) (by omega)
            rw [hm]
            simp only [cache_write_freeList, s3, getD_drop]
            rw [show k - blocks + (outerCnt (k + 1) - outerCnt blocks) =
                128 - idx2 + (k - (blocks + (128 - idx2)) +
                  (outerCnt (k + 1) - outerCnt (blocks + (128 - idx2))))
              from by
                simp only [outerCnt, INDIRECT_BLOCKS, INDIRECT_BLOCK_SIZE]
                omega]
        · intro k hk1 hk2 b
          by_cases hkr : k < blocks + (128 - idx2)
          · have hidxeq : k - blocks + (outerCnt (k + 1) - outerCnt blocks) =
                k - blocks := by
              simp only [outerCnt, INDIRECT_BLOCKS, INDIRECT_BLOCK_SIZE]
              omega
            rw [hidxeq]
            have hvlen : k - blocks < st.freeList.length := by omega
            have hv : st.freeList.getD (k - blocks) INVALID_SECTOR ∈
                st.freeList.take (128 - idx2) :=
              getD_mem_take INVALID_SECTOR (by omega) hvlen
            have hvb : st.freeList.getD (k - blocks) INVALID_SECTOR ≠
                buf1 idx1 := by
              intro he
              apply hsfb
              rw [← he]
              apply mem_take_mono _ hv
              simp only [outerCnt, INDIRECT_BLOCKS, INDIRECT_BLOCK_SIZE]
              omega
            have hframe := hpost.disk_frame
              (st.freeList.getD (k - blocks) INVALID_SECTOR)
              (by
                simp only [cache_write_freeList, s3]
                exact nodup_getD_notmem_segment hnodup INVALID_SECTOR hvlen
                  (by omega))
              (fun h => absurd rfl h)
            rw [hframe]
            simp only [cache_write_disk]
            rw [Function.update_noteq hvb]
            exact s8 _ hv b
          · have hm := hpost.data_zero k (by omega) (by omega) b
            simp only [cache_write_freeList, s3, getD_drop] at hm
            have hq : k - blocks + (outerCnt (k + 1) - outerCnt blocks) =
                (128 - idx2) + (k - (blocks + (128 - idx2)) +
                  (outerCnt (k + 1) - outerCnt (blocks + (128 - idx2)))) := by
              simp only [outerCnt, INDIRECT_BLOCKS, INDIRECT_BLOCK_SIZE]
              omega
            rw [hq]
            exact hm

/-! ## Characterization of a whole `inode_grow` call -/

/-- Number of index sectors `inode_grow` allocates when growing a record from
`oldN` to `newN` data sectors: the single-indirect sector on first use, the
doubly-indirect top sector on first use, and one index sector per freshly
started doubly-indirect outer slot. -/
def newIdxCount (oldN newN : Nat) : Nat :=
  (if oldN ≤ DIRECT_BLOCKS ∧ DIRECT_BLOCKS < newN then 1 else 0) +
  (if oldN ≤ INDIRECT_BLOCKS ∧ INDIRECT_BLOCKS < newN then 1 else 0) +
  (outerCnt newN - outerCnt oldN)

/-- Post-condition of `inode_grow st id target` when growing strictly (in
sectors).  `out = (st', id', returned length)`.  New data sector `k` is popped
from free-list position `k - oldN + newIdxCount oldN (k+1)` — data pops
interleaved with the lazily popped index sectors, tier by tier. -/
structure GrowPost (st : FsState) (id : inode_disk) (target : Nat)
    (out : FsState × inode_disk × Nat) : Prop where
  ret_eq : out.2.2 = target
  len_eq : out.2.1.length = id.length
  magic_eq : out.2.1.magic = id.magic
  isdir_eq : out.2.1.is_dir = id.is_dir
  blocks_eq : out.2.1.blocks = bytes_to_sectors target
  freeList_eq : out.1.freeList = st.freeList.drop
    (bytes_to_sectors target - id.blocks +
      newIdxCount id.blocks (bytes_to_sectors target))
  released_eq : out.1.released = st.released
  old_data : ∀ k, k < id.blocks → dataSector out.1 out.2.1 k = dataSector st id k
  old_disk : ∀ k, k < id.blocks → ∀ b,
    out.1.disk (dataSector st id k) b = st.disk (dataSector st id k) b
  new_data : ∀ k, id.blocks ≤ k → k < bytes_to_sectors target →
    dataSector out.1 out.2.1 k =
      st.freeList.getD (k - id.blocks + newIdxCount id.blocks (k + 1))
        INVALID_SECTOR
  new_zero : ∀ k, id.blocks ≤ k → k < bytes_to_sectors target → ∀ b,
    out.1.disk (dataSector out.1 out.2.1 k) b = 0
  mapok : MapOk out.1 out.2.1 (bytes_to_sectors target)
  idx_sub : ∀ x, IdxSector out.1 out.2.1 (bytes_to_sectors target) x →
    IdxSector st id id.blocks x ∨ x ∈ st.freeList.take
      (bytes_to_sectors target - id.blocks +
        newIdxCount id.blocks (bytes_to_sectors target))

/-- The `size_t` difference in `inode_grow` is an honest difference on the
relevant domain. -/
theorem grow_ns_eq {oldN newN : Nat} (h : oldN ≤ newN)
    (hcap : newN ≤ DOUBLY_BLOCKS) :
    (newN + SIZE_T_MOD - oldN) % SIZE_T_MOD = newN - oldN := by
  simp only [SIZE_T_MOD, DOUBLY_BLOCKS] at *
  omega

/-- Position of new data sector `k` in the pop order is strictly below the
total consumption. -/
theorem posData_lt {oldN newN k : Nat} (h1 : oldN ≤ k) (h2 : k < newN) :
    k - oldN + newIdxCount oldN (k + 1) <
      newN - oldN + newIdxCount oldN newN := by
  simp only [newIdxCount, outerCnt, DIRECT_BLOCKS, INDIRECT_BLOCKS,
    INDIRECT_BLOCK_SIZE]
  split_ifs <;> omega

/-- Data-pop positions are strictly monotone in `k`. -/
theorem posData_strictMono {oldN j k : Nat} (h1 : oldN ≤ j) (h2 : j < k) :
    j - oldN + newIdxCount oldN (j + 1) <
      k - oldN + newIdxCount oldN (k + 1) := by
  simp only [newIdxCount, outerCnt, DIRECT_BLOCKS, INDIRECT_BLOCKS,
    INDIRECT_BLOCK_SIZE]
  split_ifs <;> omega

theorem nodup_getD_inj {l : List Nat} (h : l.Nodup) {i j : Nat} (d : Nat)
    (hi : i < l.length) (hj : j < l.length)
    (he : l.getD i d = l.getD j d) : i = j := by
  rw [List.getD_eq_getElem l d hi, List.getD_eq_getElem l d hj] at he
  exact (@List.Nodup.getElem_inj_iff _ _ h _ hi _ hj).1 he

theorem getD_notmem_imp {l : List Nat} {x : Nat} {p : Nat} (d : Nat)
    (hp : p < l.length) (hx : x ∉ l) : l.getD p d ≠ x := by
  intro he
  exact hx (he ▸ getD_mem d hp)

/-- Post-condition of the single-indirect phase of `inode_grow`, entered with
`DIRECT_BLOCKS ≤ id.blocks` and `ns ≥ 1` more sectors to allocate.  It fills
`min ns (140 - blocks)` table entries (popping the table's own sector first
when `blocks = 12`) and writes the table back. -/
structure IndirPost (stE : FsState) (idE : inode_disk) (nsE : Nat)
    (out : FsState × inode_disk × Nat) : Prop where
  i_len : out.2.1.length = idE.length
  i_magic : out.2.1.magic = idE.magic
  i_isdir : out.2.1.is_dir = idE.is_dir
  i_blocks : out.2.1.blocks =
    idE.blocks + min nsE (INDIRECT_BLOCKS - idE.blocks)
  i_ns : out.2.2 = nsE - min nsE (INDIRECT_BLOCKS - idE.blocks)
  i_direct_other : ∀ j, j ≠ DIRECT_BLOCKS → out.2.1.direct j = idE.direct j
  i_12 : out.2.1.direct DIRECT_BLOCKS =
    (if idE.blocks = DIRECT_BLOCKS then stE.freeList.getD 0 INVALID_SECTOR
     else idE.direct DIRECT_BLOCKS)
  i_freeList : out.1.freeList = stE.freeList.drop
    ((if idE.blocks = DIRECT_BLOCKS then 1 else 0) +
      min nsE (INDIRECT_BLOCKS - idE.blocks))
  i_released : out.1.released = stE.released
  i_frame : ∀ s, s ∉ stE.freeList.take
      ((if idE.blocks = DIRECT_BLOCKS then 1 else 0) +
        min nsE (INDIRECT_BLOCKS - idE.blocks)) →
    (DIRECT_BLOCKS < idE.blocks → s ≠ idE.direct DIRECT_BLOCKS) →
    out.1.disk s = stE.disk s
  i_table_old : ∀ j, j < idE.blocks - DIRECT_BLOCKS →
    out.1.disk (out.2.1.direct DIRECT_BLOCKS) j =
      stE.disk (idE.direct DIRECT_BLOCKS) j
  i_new : ∀ k, idE.blocks ≤ k →
    k < idE.blocks + min nsE (INDIRECT_BLOCKS - idE.blocks) →
    out.1.disk (out.2.1.direct DIRECT_BLOCKS) (k - DIRECT_BLOCKS) =
      stE.freeList.getD
        ((if idE.blocks = DIRECT_BLOCKS then 1 else 0) + (k - idE.blocks))
        INVALID_SECTOR
  i_newzero : ∀ k, idE.blocks ≤ k →
    k < idE.blocks + min nsE (INDIRECT_BLOCKS - idE.blocks) → ∀ b,
    out.1.disk
      (stE.freeList.getD
        ((if idE.blocks = DIRECT_BLOCKS then 1 else 0) + (k - idE.blocks))
        INVALID_SECTOR) b = 0

theorem growIndirectPhase_spec (stE : FsState) (idE : inode_disk) (nsE : Nat)
    (hb12 : DIRECT_BLOCKS ≤ idE.blocks) (hns : 1 ≤ nsE)
    (hlen : (if idE.blocks = DIRECT_BLOCKS then 1 else 0) +
      min nsE (INDIRECT_BLOCKS - idE.blocks) ≤ stE.freeList.length)
    (hnodup : stE.freeList.Nodup)
    (hfresh12 : DIRECT_BLOCKS < idE.blocks →
      idE.direct DIRECT_BLOCKS ∉ stE.freeList) :
    IndirPost stE idE nsE (growIndirectPhase stE idE nsE) := by
  have eIB : INDIRECT_BLOCKS = 140 := rfl
  have eBS : INDIRECT_BLOCK_SIZE = 128 := rfl
  have eDB : DIRECT_BLOCKS = 12 := rfl
  by_cases h12 : idE.blocks = DIRECT_BLOCKS
  -- pop branch: allocate the table sector
  · have hne : stE.freeList ≠ [] := by
      intro h
      rw [h, if_pos h12] at hlen
      simp at hlen
    obtain ⟨a, rest, hfl⟩ := List.exists_cons_of_ne_nil hne
    have hanr : a ∉ rest := by
      rw [hfl] at hnodup
      exact (List.nodup_cons.1 hnodup).1
    have hred : growIndirectPhase stE idE nsE =
        (let r := allocZeroLoop (FsState.mk stE.disk rest stE.released)
          (fun _ => 0) 0 INDIRECT_BLOCK_SIZE nsE
         (cache_write r.st a r.slots,
          { idE with
              direct := Function.update idE.direct DIRECT_BLOCKS a,
              blocks := DIRECT_BLOCKS + r.pos }, r.ns)) := by
      simp only [growIndirectPhase, if_pos h12, free_map_allocate, hfl, h12,
        eq_self_iff_true, if_true, Nat.sub_self, Function.update_same]
    rw [hred]
    have hlenr : min nsE (INDIRECT_BLOCK_SIZE - 0) ≤
        (FsState.mk stE.disk rest stE.released).freeList.length := by
      rw [hfl, if_pos h12] at hlen
      simp only [List.length_cons] at hlen
      simp only [eBS, eIB, h12, eDB] at *
      omega
    obtain ⟨s1, s2, s3, s4, s5, s6, s7, s8⟩ :=
      allocZeroLoop_spec (FsState.mk stE.disk rest stE.released) (fun _ => 0) 0
        INDIRECT_BLOCK_SIZE nsE hns hlenr
    have htI : min nsE (INDIRECT_BLOCK_SIZE - 0) =
        min nsE (INDIRECT_BLOCKS - idE.blocks) := by
      rw [h12]
      simp only [eBS, eIB, eDB]
    rw [htI] at s1 s2 s3 s5 s6 s7 s8
    have hCI : (if idE.blocks = DIRECT_BLOCKS then 1 else 0) +
        min nsE (INDIRECT_BLOCKS - idE.blocks) =
        min nsE (INDIRECT_BLOCKS - idE.blocks) + 1 := by
      rw [if_pos h12]
      omega
    refine ⟨rfl, rfl, rfl, ?_, ?_, ?_, ?_, ?_, ?_, ?_, ?_, ?_, ?_⟩
    · dsimp only
      rw [s1]
      omega
    · dsimp only
      rw [s2]
    · intro j hj
      dsimp only
      exact Function.update_noteq hj _ _
    · dsimp only
      rw [if_pos h12, hfl]
      simp [Function.update_same]
    · dsimp only
      simp only [cache_write_freeList, s3, hCI, hfl, List.drop_succ_cons]
    · dsimp only
      simp only [cache_write_released, s4]
    · intro s hs hs2
      rw [hCI, hfl] at hs
      rw [show min nsE (INDIRECT_BLOCKS - idE.blocks) + 1 =
        Nat.succ (min nsE (INDIRECT_BLOCKS - idE.blocks)) from rfl,
        List.take_succ_cons] at hs
      simp only [List.mem_cons, not_or] at hs
      dsimp only
      simp only [cache_write_disk]
      rw [Function.update_noteq hs.1]
      exact s7 s hs.2
    · intro j hj
      rw [h12] at hj
      omega
    · intro k hk1 hk2
      dsimp only
      simp only [Function.update_same, cache_write_disk]
      rw [s6 (k - DIRECT_BLOCKS) (by omega) (by rw [h12] at hk2 ⊢; omega)]
      rw [if_pos h12, hfl]
      rw [show k - DIRECT_BLOCKS - 0 = k - idE.blocks from by omega]
      rw [show 1 + (k - idE.blocks) = (k - idE.blocks) + 1 from by omega]
      simp only [List.getD_cons_succ]
    · intro k hk1 hk2 b
      rw [if_pos h12, hfl]
      rw [show 1 + (k - idE.blocks) = (k - idE.blocks) + 1 from by omega]
      simp only [List.getD_cons_succ]
      have hkr : k - idE.blocks < rest.length := by
        rw [hfl, if_pos h12] at hlen
        simp only [List.length_cons] at hlen
        omega
      have hv : rest.getD (k - idE.blocks) INVALID_SECTOR ∈
          rest.take (min nsE (INDIRECT_BLOCKS - idE.blocks)) :=
        getD_mem_take INVALID_SECTOR (by omega) hkr
      have hva : rest.getD (k - idE.blocks) INVALID_SECTOR ≠ a :=
        getD_notmem_imp INVALID_SECTOR hkr hanr
      simp only [cache_write_disk]
      rw [Function.update_noteq hva]
      exact s8 _ hv b
  -- read branch: the table already exists
  · have h12' : DIRECT_BLOCKS < idE.blocks := by omega
    have hred : growIndirectPhase stE idE nsE =
        (let r := allocZeroLoop stE (stE.disk (idE.direct DIRECT_BLOCKS))
          (idE.blocks - DIRECT_BLOCKS) INDIRECT_BLOCK_SIZE nsE
         (cache_write r.st (idE.direct DIRECT_BLOCKS) r.slots,
          { idE with blocks := DIRECT_BLOCKS + r.pos }, r.ns)) := by
      simp only [growIndirectPhase, if_neg h12, cache_read]
    rw [hred]
    have hlenr : min nsE (INDIRECT_BLOCK_SIZE - (idE.blocks - DIRECT_BLOCKS)) ≤
        stE.freeList.length := by
      rw [if_neg h12] at hlen
      simp only [eBS, eIB, eDB] at *
      omega
    obtain ⟨s1, s2, s3, s4, s5, s6, s7, s8⟩ :=
      allocZeroLoop_spec stE (stE.disk (idE.direct DIRECT_BLOCKS))
        (idE.blocks - DIRECT_BLOCKS) INDIRECT_BLOCK_SIZE nsE hns hlenr
    have htI : min nsE (INDIRECT_BLOCK_SIZE - (idE.blocks - DIRECT_BLOCKS)) =
        min nsE (INDIRECT_BLOCKS - idE.blocks) := by
      simp only [eBS, eIB, eDB] at *
      omega
    rw [htI] at s1 s2 s3 s5 s6 s7 s8
    have hCI : (if idE.blocks = DIRECT_BLOCKS then 1 else 0) +
        min nsE (INDIRECT_BLOCKS - idE.blocks) =
        min nsE (INDIRECT_BLOCKS - idE.blocks) := by
      rw [if_neg h12]
      omega
    have hfr : idE.direct DIRECT_BLOCKS ∉
        stE.freeList.take (min nsE (INDIRECT_BLOCKS - idE.blocks)) := by
      intro hmem
      exact hfresh12 h12' (List.mem_of_mem_take hmem)
    refine ⟨rfl, rfl, rfl, ?_, ?_, ?_, ?_, ?_, ?_, ?_, ?_, ?_, ?_⟩
    · dsimp only
      rw [s1]
      omega
    · dsimp only
      rw [s2]
    · intro j hj
      rfl
    · dsimp only
      rw [if_neg h12]
    · dsimp only
      simp only [cache_write_freeList, s3, hCI]
    · dsimp only
      simp only [cache_write_released, s4]
    · intro s hs hs2
      rw [hCI] at hs
      dsimp only
      simp only [cache_write_disk]
      rw [Function.update_noteq (hs2 h12')]
      exact s7 s hs
    · intro j hj
      dsimp only
      simp only [cache_write_disk]
      rw [Function.update_same]
      rw [s5 j (Or.inl (by omega))]
    · intro k hk1 hk2
      dsimp only
      simp only [cache_write_disk]
      rw [Function.update_same]
      rw [s6 (k - DIRECT_BLOCKS) (by omega) (by
        simp only [eIB, eDB] at *
        omega)]
      rw [if_neg h12]
      rw [show k - DIRECT_BLOCKS - (idE.blocks - DIRECT_BLOCKS) =
        0 + (k - idE.blocks) from by
          simp only [eDB] at *
          omega]
    · intro k hk1 hk2 b
      rw [if_neg h12]
      have hkr : 0 + (k - idE.blocks) <
          min nsE (INDIRECT_BLOCKS - idE.blocks) := by omega
      have hklen : 0 + (k - idE.blocks) < stE.freeList.length := by
        rw [hCI] at hlen
        omega
      have hv : stE.freeList.getD (0 + (k - idE.blocks)) INVALID_SECTOR ∈
          stE.freeList.take (min nsE (INDIRECT_BLOCKS - idE.blocks)) :=
        getD_mem_take INVALID_SECTOR hkr hklen
      have hva : stE.freeList.getD (0 + (k - idE.blocks)) INVALID_SECTOR ≠
          idE.direct DIRECT_BLOCKS := by
        apply getD_notmem_imp INVALID_SECTOR hklen
        exact hfresh12 h12'
      dsimp only
      simp only [cache_write_disk]
      rw [Function.update_noteq hva]
      exact s8 _ hv b

theorem dataSector_direct (st : FsState) (id : inode_disk) (k : Nat)
    (h : k < DIRECT_BLOCKS) : dataSector st id k = id.direct k := by
  rw [dataSector, if_pos h]

theorem dataSector_indirect (st : FsState) (id : inode_disk) (k : Nat)
    (h1 : DIRECT_BLOCKS ≤ k) (h2 : k < INDIRECT_BLOCKS) :
    dataSector st id k =
      st.disk (id.direct DIRECT_BLOCKS) (k - DIRECT_BLOCKS) := by
  rw [dataSector, if_neg (by omega), if_pos h2]

theorem dataSector_doubly (st : FsState) (id : inode_disk) (k : Nat)
    (h : INDIRECT_BLOCKS ≤ k) :
    dataSector st id k =
      st.disk
        (st.disk (id.direct (DIRECT_BLOCKS + 1))
          ((k - INDIRECT_BLOCKS) / INDIRECT_BLOCK_SIZE))
        ((k - INDIRECT_BLOCKS) % INDIRECT_BLOCK_SIZE) := by
  rw [dataSector,
    if_neg (by simp only [DIRECT_BLOCKS, INDIRECT_BLOCKS] at *; omega),
    if_neg (by omega)]

theorem growDoublyOuter_spec (st : FsState) (buf1 buf2 : Nat → Nat)
    (blocks ns idx1 idx2 : Nat)
    (hb : blocks = INDIRECT_BLOCKS + INDIRECT_BLOCK_SIZE * idx1 + idx2)
    (hidx2 : idx2 < INDIRECT_BLOCK_SIZE) (hns : 1 ≤ ns)
    (hcap : blocks + ns ≤ DOUBLY_BLOCKS)
    (hlen : ns + (outerCnt (blocks + ns) - outerCnt blocks) ≤
      st.freeList.length)
    (hnodup : st.freeList.Nodup)
    (hsf : idx2 ≠ 0 → buf1 idx1 ∉
      st.freeList.take (ns + (outerCnt (blocks + ns) - outerCnt blocks))) :
    DoublyPost st buf1 blocks ns idx1 idx2
      (growDoublyOuter st buf1 buf2 blocks ns idx1 idx2) :=
  growDoublyOuterF_spec (INDIRECT_BLOCK_SIZE - idx1) st buf1 buf2 blocks ns
    idx1 idx2 (Nat.le_refl _) hb hidx2 hns hcap hlen hnodup hsf

/-- Global free-list position (relative to the state entering the
doubly-indirect phase) from which data sector `k` is popped. -/
def dposData (B k : Nat) : Nat :=
  (if B = INDIRECT_BLOCKS then 1 else 0) +
    ((k - B) + (outerCnt (k + 1) - outerCnt B))

/-- Global free-list position from which the outer-slot index sector `i` is
popped during the doubly-indirect phase. -/
def dposSlot (B i : Nat) : Nat :=
  (if B = INDIRECT_BLOCKS then 1 else 0) +
    ((INDIRECT_BLOCKS + INDIRECT_BLOCK_SIZE * i - B) + (i - outerCnt B))

/-- Number of sectors the doubly-indirect phase pops from the free list. -/
def dCount (B ns : Nat) : Nat :=
  (if B = INDIRECT_BLOCKS then 1 else 0) +
    (ns + (outerCnt (B + ns) - outerCnt B))

/-- Post-condition of the doubly-indirect phase of `inode_grow`, entered with
`blocks ≥ 140` and `ns ≥ 1`: allocate or load the top index sector, fill `ns`
more data sectors (allocating outer-slot sectors as needed), write the top
index sector back. -/
structure DblPost (stE : FsState) (idE : inode_disk) (nsE : Nat)
    (out : FsState × inode_disk) : Prop where
  d_len : out.2.length = idE.length
  d_magic : out.2.magic = idE.magic
  d_isdir : out.2.is_dir = idE.is_dir
  d_blocks : out.2.blocks = idE.blocks + nsE
  d_direct_other : ∀ j, j ≠ DIRECT_BLOCKS + 1 → out.2.direct j = idE.direct j
  d_13 : out.2.direct (DIRECT_BLOCKS + 1) =
    (if idE.blocks = INDIRECT_BLOCKS then stE.freeList.getD 0 INVALID_SECTOR
     else idE.direct (DIRECT_BLOCKS + 1))
  d_freeList : out.1.freeList = stE.freeList.drop (dCount idE.blocks nsE)
  d_released : out.1.released = stE.released
  d_frame : ∀ s, s ∉ stE.freeList.take (dCount idE.blocks nsE) →
    (INDIRECT_BLOCKS < idE.blocks → s ≠ idE.direct (DIRECT_BLOCKS + 1)) →
    (∀ i, i < outerCnt idE.blocks →
      s ≠ stE.disk (idE.direct (DIRECT_BLOCKS + 1)) i) →
    out.1.disk s = stE.disk s
  d_table : ∀ i, i < outerCnt (idE.blocks + nsE) →
    out.1.disk (out.2.direct (DIRECT_BLOCKS + 1)) i =
      (if i < outerCnt idE.blocks
       then stE.disk (idE.direct (DIRECT_BLOCKS + 1)) i
       else stE.freeList.getD (dposSlot idE.blocks i) INVALID_SECTOR)
  d_old_res : ∀ k, INDIRECT_BLOCKS ≤ k → k < idE.blocks →
    dataSector out.1 out.2 k = dataSector stE idE k
  d_new : ∀ k, idE.blocks ≤ k → k < idE.blocks + nsE →
    dataSector out.1 out.2 k =
      stE.freeList.getD (dposData idE.blocks k) INVALID_SECTOR
  d_newzero : ∀ k, idE.blocks ≤ k → k < idE.blocks + nsE → ∀ b,
    out.1.disk (stE.freeList.getD (dposData idE.blocks k) INVALID_SECTOR) b = 0

theorem growDoublyPhase_spec (stE : FsState) (idE : inode_disk) (nsE : Nat)
    (h140 : INDIRECT_BLOCKS ≤ idE.blocks) (hns : 1 ≤ nsE)
    (hcap : idE.blocks + nsE ≤ DOUBLY_BLOCKS)
    (hlen : dCount idE.blocks nsE ≤ stE.freeList.length)
    (hnodup : stE.freeList.Nodup)
    (hfresh13 : INDIRECT_BLOCKS < idE.blocks →
      idE.direct (DIRECT_BLOCKS + 1) ∉ stE.freeList)
    (hslotfresh : ∀ i, i < outerCnt idE.blocks →
      stE.disk (idE.direct (DIRECT_BLOCKS + 1)) i ∉ stE.freeList)
    (hslot13 : ∀ i, i < outerCnt idE.blocks →
      idE.direct (DIRECT_BLOCKS + 1) ≠
        stE.disk (idE.direct (DIRECT_BLOCKS + 1)) i)
    (hslotinj : ∀ i j, i < outerCnt idE.blocks → j < outerCnt idE.blocks →
      stE.disk (idE.direct (DIRECT_BLOCKS + 1)) i =
        stE.disk (idE.direct (DIRECT_BLOCKS + 1)) j → i = j) :
    DblPost stE idE nsE (growDoublyPhase stE idE nsE) := by
  have eIB : INDIRECT_BLOCKS = 140 := rfl
  have eBS : INDIRECT_BLOCK_SIZE = 128 := rfl
  by_cases hB : idE.blocks = INDIRECT_BLOCKS
  -- pop branch: allocate the top index sector
  · have hoc0 : outerCnt INDIRECT_BLOCKS = 0 := by decide
    have hCD1 : 1 ≤ dCount idE.blocks nsE := by
      simp only [dCount, if_pos hB]
      omega
    have hne : stE.freeList ≠ [] := by
      intro h
      rw [h] at hlen
      simp only [List.length_nil, Nat.le_zero] at hlen
      omega
    obtain ⟨a, rest, hfl⟩ := List.exists_cons_of_ne_nil hne
    have hanr : a ∉ rest := by
      rw [hfl] at hnodup
      exact (List.nodup_cons.1 hnodup).1
    have hrnodup : rest.Nodup := by
      rw [hfl] at hnodup
      exact (List.nodup_cons.1 hnodup).2
    have hred : growDoublyPhase stE idE nsE =
        (let r := growDoublyOuter (FsState.mk stE.disk rest stE.released)
          (fun _ => 0) (fun _ => 0) INDIRECT_BLOCKS nsE 0 0
         (cache_write r.st a r.buf1,
          { idE with
              direct := Function.update idE.direct (DIRECT_BLOCKS + 1) a,
              blocks := r.blocks })) := by
      simp only [growDoublyPhase, if_pos hB, free_map_allocate, hfl, hB,
        eq_self_iff_true, if_true, Nat.sub_self, Nat.zero_div, Nat.zero_mod,
        Function.update_same]
    rw [hred]
    have hlen2 : nsE + (outerCnt (INDIRECT_BLOCKS + nsE) -
        outerCnt INDIRECT_BLOCKS) ≤
        (FsState.mk stE.disk rest stE.released).freeList.length := by
      rw [hfl] at hlen
      simp only [dCount, if_pos hB, hB, eq_self_iff_true, if_true,
        List.length_cons] at hlen
      simp only [List.length_cons] at hlen ⊢
      omega
    obtain ⟨D1, D2, D3, D4, D5, D6, D7, D8, D9, D10, D11⟩ :=
      growDoublyOuter_spec (FsState.mk stE.disk rest stE.released)
        (fun _ => 0) (fun _ => 0) INDIRECT_BLOCKS nsE 0 0
        (by simp) (by decide) hns (by rw [hB] at hcap; exact hcap)
        hlen2 hrnodup (fun h => absurd rfl h)
    refine ⟨rfl, rfl, rfl, ?_, ?_, ?_, ?_, ?_, ?_, ?_, ?_, ?_, ?_⟩
    · dsimp only
      rw [D1, hB]
    · intro j hj
      dsimp only
      exact Function.update_noteq hj _ _
    · dsimp only
      simp only [Function.update_same, if_pos hB, hfl, List.getD_cons_zero]
    · dsimp only
      simp only [cache_write_freeList, D3, dCount, if_pos hB, hB,
        eq_self_iff_true, if_true, hfl]
      rw [Nat.add_comm 1, List.drop_succ_cons]
    · dsimp only
      simp only [cache_write_released, D4]
    · intro s hs h13c hslc
      rw [hfl] at hs
      simp only [dCount, if_pos hB, hB, eq_self_iff_true, if_true] at hs
      rw [Nat.add_comm 1, List.take_succ_cons] at hs
      simp only [List.mem_cons, not_or] at hs
      dsimp only
      simp only [cache_write_disk]
      rw [Function.update_noteq hs.1]
      exact D7 s hs.2 (fun h => absurd rfl h)
    · intro i hi
      rw [hB] at hi
      dsimp only
      simp only [cache_write_disk, Function.update_same]
      rw [if_neg (by rw [hB, hoc0]; omega)]
      rw [D9 i (Nat.zero_le i) hi (fun _ => rfl)]
      rw [hfl]
      rw [show dposSlot idE.blocks i =
        (INDIRECT_BLOCKS + INDIRECT_BLOCK_SIZE * i - INDIRECT_BLOCKS +
          (i - outerCnt INDIRECT_BLOCKS)) + 1 from by
        simp only [dposSlot, if_pos hB, hB, eq_self_iff_true, if_true,
          outerCnt, INDIRECT_BLOCKS, INDIRECT_BLOCK_SIZE]
        omega]
      rw [List.getD_cons_succ]
    · intro k hk1 hk2
      rw [hB] at hk2
      exfalso
      omega
    · intro k hk1 hk2
      rw [hB] at hk1 hk2
      have hk140 : INDIRECT_BLOCKS ≤ k := hk1
      dsimp only
      rw [dataSector_doubly _ _ k hk140]
      dsimp only
      simp only [cache_write_disk, Function.update_same]
      have hi1k : (k - INDIRECT_BLOCKS) / INDIRECT_BLOCK_SIZE <
          outerCnt (INDIRECT_BLOCKS + nsE) :=
        div_lt_outerCnt hk140 (by omega)
      have hbuf : (growDoublyOuter (FsState.mk stE.disk rest stE.released)
          (fun _ => 0) (fun _ => 0) INDIRECT_BLOCKS nsE 0 0).buf1
          ((k - INDIRECT_BLOCKS) / INDIRECT_BLOCK_SIZE) =
          (FsState.mk stE.disk rest stE.released).freeList.getD
            (INDIRECT_BLOCKS + INDIRECT_BLOCK_SIZE *
              ((k - INDIRECT_BLOCKS) / INDIRECT_BLOCK_SIZE) -
              INDIRECT_BLOCKS +
              ((k - INDIRECT_BLOCKS) / INDIRECT_BLOCK_SIZE -
                outerCnt INDIRECT_BLOCKS)) INVALID_SECTOR :=
        D9 _ (Nat.zero_le _) hi1k (fun _ => rfl)
      have hglt : INDIRECT_BLOCKS + INDIRECT_BLOCK_SIZE *
          ((k - INDIRECT_BLOCKS) / INDIRECT_BLOCK_SIZE) - INDIRECT_BLOCKS +
          ((k - INDIRECT_BLOCKS) / INDIRECT_BLOCK_SIZE -
            outerCnt INDIRECT_BLOCKS) <
          nsE + (outerCnt (INDIRECT_BLOCKS + nsE) -
            outerCnt INDIRECT_BLOCKS) := by
        simp only [outerCnt, INDIRECT_BLOCKS, INDIRECT_BLOCK_SIZE] at *
        omega
      have hglen : INDIRECT_BLOCKS + INDIRECT_BLOCK_SIZE *
          ((k - INDIRECT_BLOCKS) / INDIRECT_BLOCK_SIZE) - INDIRECT_BLOCKS +
          ((k - INDIRECT_BLOCKS) / INDIRECT_BLOCK_SIZE -
            outerCnt INDIRECT_BLOCKS) < rest.length := by
        simp only [List.length_cons] at hlen2
        omega
      have hnea : (growDoublyOuter (FsState.mk stE.disk rest stE.released)
          (fun _ => 0) (fun _ => 0) INDIRECT_BLOCKS nsE 0 0).buf1
          ((k - INDIRECT_BLOCKS) / INDIRECT_BLOCK_SIZE) ≠ a := by
        rw [hbuf]
        exact getD_notmem_imp _ hglen hanr
      rw [Function.update_noteq hnea]
      rw [D10 k hk1 (by omega)]
      rw [hfl]
      rw [show dposData idE.blocks k =
        (k - INDIRECT_BLOCKS +
          (outerCnt (k + 1) - outerCnt INDIRECT_BLOCKS)) + 1 from by
        simp only [dposData, if_pos hB, hB, eq_self_iff_true, if_true]
        omega]
      rw [List.getD_cons_succ]
    · intro k hk1 hk2 b
      rw [hB] at hk1 hk2
      rw [hfl]
      rw [show dposData idE.blocks k =
        (k - INDIRECT_BLOCKS +
          (outerCnt (k + 1) - outerCnt INDIRECT_BLOCKS)) + 1 from by
        simp only [dposData, if_pos hB, hB, eq_self_iff_true, if_true]
        omega]
      rw [List.getD_cons_succ]
      have hflt : k - INDIRECT_BLOCKS +
          (outerCnt (k + 1) - outerCnt INDIRECT_BLOCKS) <
          nsE + (outerCnt (INDIRECT_BLOCKS + nsE) -
            outerCnt INDIRECT_BLOCKS) := by
        simp only [outerCnt, INDIRECT_BLOCKS, INDIRECT_BLOCK_SIZE] at *
        omega
      have hflen : k - INDIRECT_BLOCKS +
          (outerCnt (k + 1) - outerCnt INDIRECT_BLOCKS) < rest.length := by
        simp only [List.length_cons] at hlen2
        omega
      have hnea : rest.getD (k - INDIRECT_BLOCKS +
          (outerCnt (k + 1) - outerCnt INDIRECT_BLOCKS)) INVALID_SECTOR ≠ a :=
        getD_notmem_imp _ hflen hanr
      simp only [cache_write_disk]
      rw [Function.update_noteq hnea]
      exact D11 k hk1 (by omega) b
  -- read branch: the top index sector already exists
  · have hB' : INDIRECT_BLOCKS < idE.blocks := by omega
    have hred : growDoublyPhase stE idE nsE =
        (let r := growDoublyOuter stE
          (stE.disk (idE.direct (DIRECT_BLOCKS + 1))) (fun _ => 0)
          idE.blocks nsE
          ((idE.blocks - INDIRECT_BLOCKS) / INDIRECT_BLOCK_SIZE)
          ((idE.blocks - INDIRECT_BLOCKS) % INDIRECT_BLOCK_SIZE)
         (cache_write r.st (idE.direct (DIRECT_BLOCKS + 1)) r.buf1,
          { idE with blocks := r.blocks })) := by
      simp only [growDoublyPhase, if_neg hB, cache_read]
    rw [hred]
    have hbeq : idE.blocks = INDIRECT_BLOCKS + INDIRECT_BLOCK_SIZE *
        ((idE.blocks - INDIRECT_BLOCKS) / INDIRECT_BLOCK_SIZE) +
        (idE.blocks - INDIRECT_BLOCKS) % INDIRECT_BLOCK_SIZE := by
      have h140n : 140 ≤ idE.blocks := by
        rw [← eIB]
        exact h140
      simp only [INDIRECT_BLOCKS, INDIRECT_BLOCK_SIZE]
      omega
    have hmod : (idE.blocks - INDIRECT_BLOCKS) % INDIRECT_BLOCK_SIZE <
        INDIRECT_BLOCK_SIZE := Nat.mod_lt _ (by decide)
    have hlen2 : nsE + (outerCnt (idE.blocks + nsE) - outerCnt idE.blocks) ≤
        stE.freeList.length := by
      simp only [dCount, if_neg hB] at hlen
      omega
    have hocB : outerCnt idE.blocks =
        (idE.blocks - INDIRECT_BLOCKS) / INDIRECT_BLOCK_SIZE +
        (if (idE.blocks - INDIRECT_BLOCKS) % INDIRECT_BLOCK_SIZE = 0
         then 0 else 1) := by
      simp only [outerCnt, INDIRECT_BLOCKS, INDIRECT_BLOCK_SIZE] at *
      split_ifs <;> omega
    have hsf : (idE.blocks - INDIRECT_BLOCKS) % INDIRECT_BLOCK_SIZE ≠ 0 →
        stE.disk (idE.direct (DIRECT_BLOCKS + 1))
          ((idE.blocks - INDIRECT_BLOCKS) / INDIRECT_BLOCK_SIZE) ∉
          stE.freeList.take
            (nsE + (outerCnt (idE.blocks + nsE) - outerCnt idE.blocks)) := by
      intro hm hmem
      exact hslotfresh _ (by rw [hocB, if_neg hm]; omega)
        (List.mem_of_mem_take hmem)
    obtain ⟨D1, D2, D3, D4, D5, D6, D7, D8, D9, D10, D11⟩ :=
      growDoublyOuter_spec stE (stE.disk (idE.direct (DIRECT_BLOCKS + 1)))
        (fun _ => 0) idE.blocks nsE
        ((idE.blocks - INDIRECT_BLOCKS) / INDIRECT_BLOCK_SIZE)
        ((idE.blocks - INDIRECT_BLOCKS) % INDIRECT_BLOCK_SIZE)
        hbeq hmod hns hcap hlen2 hnodup hsf
    have hCD : dCount idE.blocks nsE =
        nsE + (outerCnt (idE.blocks + nsE) - outerCnt idE.blocks) := by
      simp only [dCount, if_neg hB]
      omega
    have htab : ∀ i, i < outerCnt idE.blocks →
        (growDoublyOuter stE (stE.disk (idE.direct (DIRECT_BLOCKS + 1)))
          (fun _ => 0) idE.blocks nsE
          ((idE.blocks - INDIRECT_BLOCKS) / INDIRECT_BLOCK_SIZE)
          ((idE.blocks - INDIRECT_BLOCKS) % INDIRECT_BLOCK_SIZE)).buf1 i =
        stE.disk (idE.direct (DIRECT_BLOCKS + 1)) i := by
      intro i hi
      by_cases hm : (idE.blocks - INDIRECT_BLOCKS) % INDIRECT_BLOCK_SIZE = 0
      · exact D5 i (by rw [hocB, if_pos hm] at hi; omega)
      · rcases Nat.lt_or_ge i
          ((idE.blocks - INDIRECT_BLOCKS) / INDIRECT_BLOCK_SIZE) with h | h
        · exact D5 i h
        · have hieq : i =
              (idE.blocks - INDIRECT_BLOCKS) / INDIRECT_BLOCK_SIZE := by
            rw [hocB, if_neg hm] at hi
            omega
          rw [hieq]
          exact D6 hm
    refine ⟨rfl, rfl, rfl, ?_, ?_, ?_, ?_, ?_, ?_, ?_, ?_, ?_, ?_⟩
    · dsimp only
      rw [D1]
    · intro j hj
      rfl
    · dsimp only
      rw [if_neg hB]
    · dsimp only
      simp only [cache_write_freeList, D3, hCD]
    · dsimp only
      simp only [cache_write_released, D4]
    · intro s hs h13c hslc
      have h13 : s ≠ idE.direct (DIRECT_BLOCKS + 1) := h13c hB'
      dsimp only
      simp only [cache_write_disk]
      rw [Function.update_noteq h13]
      refine D7 s (by rw [hCD] at hs; exact hs) ?_
      intro hm
      exact hslc _ (by rw [hocB, if_neg hm]; omega)
    · intro i hi
      dsimp only
      simp only [cache_write_disk, Function.update_same]
      by_cases hio : i < outerCnt idE.blocks
      · rw [if_pos hio]
        exact htab i hio
      · rw [if_neg hio]
        rw [D9 i (by rw [hocB] at hio; omega) hi (by
          intro he
          by_contra hm
          rw [hocB, if_neg hm] at hio
          omega)]
        rw [show dposSlot idE.blocks i =
          INDIRECT_BLOCKS + INDIRECT_BLOCK_SIZE * i - idE.blocks +
            (i - outerCnt idE.blocks) from by
          simp only [dposSlot, if_neg hB]
          omega]
    · intro k hk1 hk2
      dsimp only
      rw [dataSector_doubly _ _ k hk1, dataSector_doubly _ _ k hk1]
      dsimp only
      simp only [cache_write_disk, Function.update_same]
      have hi1k : (k - INDIRECT_BLOCKS) / INDIRECT_BLOCK_SIZE <
          outerCnt idE.blocks := div_lt_outerCnt hk1 hk2
      rw [htab _ hi1k]
      have hsl13 : stE.disk (idE.direct (DIRECT_BLOCKS + 1))
          ((k - INDIRECT_BLOCKS) / INDIRECT_BLOCK_SIZE) ≠
          idE.direct (DIRECT_BLOCKS + 1) := (hslot13 _ hi1k).symm
      rw [Function.update_noteq hsl13]
      rcases Nat.lt_or_ge ((k - INDIRECT_BLOCKS) / INDIRECT_BLOCK_SIZE)
        ((idE.blocks - INDIRECT_BLOCKS) / INDIRECT_BLOCK_SIZE) with hlt | hge
      · rw [D7 _ (fun hmem => hslotfresh _ hi1k (List.mem_of_mem_take hmem))
          (by
            intro hm heqsl
            have hidx1lt :
                (idE.blocks - INDIRECT_BLOCKS) / INDIRECT_BLOCK_SIZE <
                outerCnt idE.blocks := by
              rw [hocB, if_neg hm]
              omega
            have := hslotinj _ _ hi1k hidx1lt heqsl
            omega)]
      · have hm : (idE.blocks - INDIRECT_BLOCKS) % INDIRECT_BLOCK_SIZE ≠ 0 := by
          intro hm0
          rw [hocB, if_pos hm0] at hi1k
          omega
        have heq : (k - INDIRECT_BLOCKS) / INDIRECT_BLOCK_SIZE =
            (idE.blocks - INDIRECT_BLOCKS) / INDIRECT_BLOCK_SIZE := by
          rw [hocB, if_neg hm] at hi1k
          omega
        have hj : (k - INDIRECT_BLOCKS) % INDIRECT_BLOCK_SIZE <
            (idE.blocks - INDIRECT_BLOCKS) % INDIRECT_BLOCK_SIZE := by
          rw [eIB, eBS] at heq ⊢
          rw [eIB] at hk1
          omega
        rw [heq]
        exact D8 hm _ hj
    · intro k hk1 hk2
      have hk140 : INDIRECT_BLOCKS ≤ k := le_trans h140 hk1
      dsimp only
      rw [dataSector_doubly _ _ k hk140]
      dsimp only
      simp only [cache_write_disk, Function.update_same]
      have hi1k2 : (k - INDIRECT_BLOCKS) / INDIRECT_BLOCK_SIZE <
          outerCnt (idE.blocks + nsE) := div_lt_outerCnt hk140 (by omega)
      have hne13 : (growDoublyOuter stE
          (stE.disk (idE.direct (DIRECT_BLOCKS + 1))) (fun _ => 0)
          idE.blocks nsE
          ((idE.blocks - INDIRECT_BLOCKS) / INDIRECT_BLOCK_SIZE)
          ((idE.blocks - INDIRECT_BLOCKS) % INDIRECT_BLOCK_SIZE)).buf1
          ((k - INDIRECT_BLOCKS) / INDIRECT_BLOCK_SIZE) ≠
          idE.direct (DIRECT_BLOCKS + 1) := by
        by_cases hio : (k - INDIRECT_BLOCKS) / INDIRECT_BLOCK_SIZE <
            outerCnt idE.blocks
        · rw [htab _ hio]
          exact (hslot13 _ hio).symm
        · rw [D9 _ (by rw [hocB] at hio; omega) hi1k2 (by
            intro he
            by_contra hm
            rw [hocB, if_neg hm] at hio
            omega)]
          have hplen : INDIRECT_BLOCKS + INDIRECT_BLOCK_SIZE *
              ((k - INDIRECT_BLOCKS) / INDIRECT_BLOCK_SIZE) - idE.blocks +
              ((k - INDIRECT_BLOCKS) / INDIRECT_BLOCK_SIZE -
                outerCnt idE.blocks) < stE.freeList.length := by
            have hg : INDIRECT_BLOCKS + INDIRECT_BLOCK_SIZE *
                ((k - INDIRECT_BLOCKS) / INDIRECT_BLOCK_SIZE) - idE.blocks +
                ((k - INDIRECT_BLOCKS) / INDIRECT_BLOCK_SIZE -
                  outerCnt idE.blocks) <
                nsE + (outerCnt (idE.blocks + nsE) - outerCnt idE.blocks) := by
              simp only [outerCnt, INDIRECT_BLOCKS, INDIRECT_BLOCK_SIZE]
                at hio hi1k2 ⊢
              rw [eIB] at hk140 h140
              omega
            omega
          exact getD_notmem_imp _ hplen (hfresh13 hB')
      rw [Function.update_noteq hne13]
      rw [D10 k hk1 hk2]
      rw [show dposData idE.blocks k =
        k - idE.blocks + (outerCnt (k + 1) - outerCnt idE.blocks) from by
        simp only [dposData, if_neg hB]
        omega]
    · intro k hk1 hk2 b
      dsimp only
      have hplen : dposData idE.blocks k < stE.freeList.length := by
        have hg : dposData idE.blocks k <
            nsE + (outerCnt (idE.blocks + nsE) - outerCnt idE.blocks) := by
          rw [show dposData idE.blocks k =
            k - idE.blocks + (outerCnt (k + 1) - outerCnt idE.blocks) from by
            simp only [dposData, if_neg hB]
            omega]
          simp only [outerCnt, INDIRECT_BLOCKS, INDIRECT_BLOCK_SIZE]
          rw [eIB] at h140
          omega
        omega
      have hv13 : stE.freeList.getD (dposData idE.blocks k) INVALID_SECTOR ≠
          idE.direct (DIRECT_BLOCKS + 1) :=
        getD_notmem_imp _ hplen (hfresh13 hB')
      simp only [cache_write_disk]
      rw [Function.update_noteq hv13]
      have hz := D11 k hk1 hk2 b
      rw [show dposData idE.blocks k =
        k - idE.blocks + (outerCnt (k + 1) - outerCnt idE.blocks) from by
        simp only [dposData, if_neg hB]
        omega]
      exact hz

end Pintos
